import Mathlib

/-!
Shallow embedding of the collaborative-canvas room replication engine.

Server side (server/src/protocol.ts, server/src/drawing-state.ts,
server/src/server.ts, server/src/rooms.ts) and client side
(client/src/net/socket.ts, client/src/state/roomStore.ts).

JavaScript `Map` objects are modelled as insertion-ordered association
lists with unique keys; `Set` objects as insertion-ordered duplicate-free
lists; finite JavaScript numbers as rationals (every finite double has an
exact rational value, and the comparisons/min/max used by the code agree
with the rational ones); `Date.now()` is threaded in as an explicit `now`
parameter.  Strings are Lean strings (only ASCII data appears in the
concrete inputs used below, where JS code units and characters coincide).
-/

namespace Canvas

/-! ## JavaScript container primitives -/

/-- `Map.prototype.get` on an insertion-ordered association list. -/
def jsMapGet {κ α : Type} [DecidableEq κ] (m : List (κ × α)) (k : κ) : Option α :=
  (m.find? (fun p => decide (p.1 = k))).map Prod.snd

/-- `Map.prototype.has`. -/
def jsMapHas {κ α : Type} [DecidableEq κ] (m : List (κ × α)) (k : κ) : Bool :=
  (jsMapGet m k).isSome

/-- `Map.prototype.set`: replaces in place if the key exists, else appends. -/
def jsMapSet {κ α : Type} [DecidableEq κ] (m : List (κ × α)) (k : κ) (v : α) :
    List (κ × α) :=
  if jsMapHas m k then m.map (fun p => if p.1 = k then (k, v) else p) else m ++ [(k, v)]

/-- `Map.prototype.delete`. -/
def jsMapDelete {κ α : Type} [DecidableEq κ] (m : List (κ × α)) (k : κ) : List (κ × α) :=
  m.filter (fun p => decide (p.1 ≠ k))

/-- `Set.prototype.add`: appends if not already present. -/
def jsSetAdd {α : Type} [DecidableEq α] (s : List α) (x : α) : List α :=
  if x ∈ s then s else s ++ [x]

/-- `Set.prototype.delete`. -/
def jsSetDelete {α : Type} [DecidableEq α] (s : List α) (x : α) : List α :=
  s.erase x

/-- `new Set(list)`: deduplicate keeping first occurrences. -/
def jsNewSet {α : Type} [DecidableEq α] (l : List α) : List α :=
  l.foldl jsSetAdd []

/-! ## Protocol data (server/src/protocol.ts) -/

inductive Tool
  | brush
  | eraser
  | rectangle
  | circle
  | square
deriving DecidableEq, Repr

inductive Mode
  | edit
  | view
deriving DecidableEq, Repr

structure StrokeRecord where
  id : String
  userId : String
  tool : Tool
  color : String
  w : ℚ
  points : List (ℚ × ℚ)
  committed : Bool
  createdAt : ℕ
  updatedAt : ℕ
deriving DecidableEq, Repr

inductive ClientOp
  | strokeStart (strokeId : String) (tool : Tool) (color : String) (w x y : ℚ)
  | strokePoints (strokeId : String) (pts : List (ℚ × ℚ))
  | strokeEnd (strokeId : String)
  | undo
  | redo
deriving DecidableEq, Repr

inductive ServerOp
  | strokeStart (strokeId : String) (tool : Tool) (color : String) (w x y : ℚ)
  | strokePoints (strokeId : String) (pts : List (ℚ × ℚ))
  | strokeEnd (strokeId : String)
  | undoApplied (strokeId : String)
  | redoApplied (strokeId : String)
deriving DecidableEq, Repr

structure OpEnvelope where
  seq : ℕ
  op : ServerOp
  byUser : String
  ts : ℕ
deriving DecidableEq, Repr

/-! ## Drawing state (server/src/drawing-state.ts) -/

structure DrawingState where
  strokes : List (String × StrokeRecord)
  committed : List String
  undone : List String
  committedOrder : List String
  redoStack : List String
deriving DecidableEq, Repr

def DrawingState.init : DrawingState :=
  { strokes := [], committed := [], undone := [], committedOrder := [], redoStack := [] }

inductive ApplyRes
  | ok (broadcast : Option ServerOp)
  | err (e : String)
deriving DecidableEq, Repr

/-- The `for (let i = committedOrder.length - 1; ...)` scan of the undo case,
applied to the reversed `committedOrder`: first id that is in `committed`
and not in `undone`. -/
def undoScan (committed undone : List String) : List String → Option String
  | [] => none
  | id :: rest =>
    if id ∈ committed ∧ id ∉ undone then some id else undoScan committed undone rest

/-- The `while (redoStack.length > 0)` pop loop of the redo case, applied to
the reversed `redoStack` (head = top of stack).  Returns the matched id and
the part of the (reversed) stack below it. -/
def redoScan (committed undone : List String) :
    List String → Option (String × List String)
  | [] => none
  | id :: rest =>
    if id ∈ committed ∧ id ∈ undone then some (id, rest)
    else redoScan committed undone rest

/-- `DrawingState.applyClientOp`, state-passing: returns the result together
with the post state (the post state equals the input state on every error
path, mirroring the early returns of the source). -/
def applyClientOp (now : ℕ) (userId : String) (op : ClientOp) (s : DrawingState) :
    ApplyRes × DrawingState :=
  match op with
  | .strokeStart strokeId tool color w x y =>
    if jsMapHas s.strokes strokeId then (.err "strokeId already exists", s)
    else
      (.ok (some (.strokeStart strokeId tool color w x y)),
        { s with strokes := jsMapSet s.strokes strokeId ({ id := strokeId, userId := userId, tool := tool, color := color, w := w, points := [(x, y)], committed := false, createdAt := now, updatedAt := now }) })
  | .strokePoints strokeId pts =>
    match jsMapGet s.strokes strokeId with
    | none => (.err "unknown strokeId", s)
    | some r =>
      if r.committed then (.err "stroke already committed", s)
      else if r.userId ≠ userId then (.err "stroke owned by another user", s)
      else
        (.ok (some (.strokePoints strokeId pts)),
          { s with strokes := jsMapSet s.strokes strokeId ({ r with points := r.points ++ pts, updatedAt := now }) })
  | .strokeEnd strokeId =>
    match jsMapGet s.strokes strokeId with
    | none => (.err "unknown strokeId", s)
    | some r =>
      if r.committed then (.err "stroke already committed", s)
      else if r.userId ≠ userId then (.err "stroke owned by another user", s)
      else
        (.ok (some (.strokeEnd strokeId)),
          { s with
              strokes := jsMapSet s.strokes strokeId ({ r with committed := true, updatedAt := now }),
              committed := jsSetAdd s.committed strokeId,
              committedOrder := s.committedOrder ++ [strokeId],
              redoStack := [],
              undone := jsSetDelete s.undone strokeId })
  | .undo =>
    match undoScan s.committed s.undone s.committedOrder.reverse with
    | some id =>
      (.ok (some (.undoApplied id)),
        { s with undone := jsSetAdd s.undone id, redoStack := s.redoStack ++ [id] })
    | none => (.ok none, s)
  | .redo =>
    match redoScan s.committed s.undone s.redoStack.reverse with
    | some (id, rest) =>
      (.ok (some (.redoApplied id)),
        { s with undone := jsSetDelete s.undone id, redoStack := rest.reverse })
    | none => (.ok none, { s with redoStack := [] })

/-- Snapshot for late joiners (`DrawingState.getSnapshot`). -/
structure Snapshot where
  strokes : List StrokeRecord
  undone : List String
  inProgress : List StrokeRecord
deriving DecidableEq, Repr

def getSnapshot (s : DrawingState) : Snapshot :=
  { strokes := (s.strokes.map Prod.snd).filter (fun r => r.committed),
    undone := s.undone,
    inProgress := (s.strokes.map Prod.snd).filter (fun r => !r.committed) }

structure DrawingStatePersisted where
  seq : ℕ
  strokes : List StrokeRecord
  undone : List String
  committedOrder : List String
  redoStack : List String
deriving DecidableEq, Repr

/-- `DrawingState.exportPersisted`. -/
def exportPersisted (seq : ℕ) (s : DrawingState) : DrawingStatePersisted :=
  { seq := seq,
    strokes :=
      s.committedOrder.filterMap (fun id =>
        match jsMapGet s.strokes id with
        | some r => if r.committed then some r else none
        | none => none),
    undone := s.undone,
    committedOrder := s.committedOrder,
    redoStack := s.redoStack }

/-- `DrawingState.fromPersisted`. -/
def fromPersisted (p : DrawingStatePersisted) : DrawingState :=
  { strokes := p.strokes.foldl (fun m r => jsMapSet m r.id r) [],
    committed := p.strokes.foldl (fun c r => jsSetAdd c r.id) [],
    undone := jsNewSet p.undone,
    committedOrder := p.committedOrder,
    redoStack := p.redoStack }

/-! ## Untrusted JSON-like values and the op validator (server/src/protocol.ts) -/

/-- An untrusted JavaScript value as received over the socket.  `numNonFinite`
stands for `NaN` and the infinities (rejected by `Number.isFinite`); `num`
carries the exact rational value of a finite double. -/
inductive JsVal
  | str (s : String)
  | num (x : ℚ)
  | numNonFinite
  | boolean (b : Bool)
  | null
  | undef
  | arr (xs : List JsVal)
  | obj (fields : List (String × JsVal))

/-- Property access `v[k]`: named properties of non-objects and of arrays are
`undefined` (modelled as `none`). -/
def JsVal.getField : JsVal → String → Option JsVal
  | .obj fields, k => (fields.find? (fun p => decide (p.1 = k))).map Prod.snd
  | _, _ => none

/-- `typeof v === "object" && v !== null` (arrays are objects in JS). -/
def isObjLike : JsVal → Bool
  | .obj _ => true
  | .arr _ => true
  | _ => false

/-- `isNum` applied to a property-access result: a finite number. -/
def asNum : Option JsVal → Option ℚ
  | some (.num x) => some x
  | _ => none

/-- `isStr` applied to a property-access result: a non-empty string. -/
def asStr : Option JsVal → Option String
  | some (.str s) => if s.length > 0 then some s else none
  | _ => none

/-- `isTool`. -/
def asTool : Option JsVal → Option Tool
  | some (.str s) =>
    if s = "brush" then some .brush
    else if s = "eraser" then some .eraser
    else if s = "rectangle" then some .rectangle
    else if s = "circle" then some .circle
    else if s = "square" then some .square
    else none
  | _ => none

/-- One entry of a `pts` array: an array of exactly two finite numbers. -/
def asPoint : JsVal → Option (ℚ × ℚ)
  | .arr [.num a, .num b] => some (a, b)
  | _ => none

/-- `isPts` applied to a property-access result. -/
def asPts : Option JsVal → Option (List (ℚ × ℚ))
  | some (.arr xs) => xs.mapM asPoint
  | _ => none

/-- `validateClientOp`. -/
def validateClientOp (raw : JsVal) : Except String ClientOp :=
  if ¬ isObjLike raw then .error "op must be an object"
  else
    match asStr (raw.getField "t") with
    | none => .error "op.t is required"
    | some t =>
      if t = "undo" then .ok .undo
      else if t = "redo" then .ok .redo
      else if t = "stroke_start" then
        match asStr (raw.getField "strokeId") with
        | none => .error "strokeId required"
        | some strokeId =>
          match asTool (raw.getField "tool") with
          | none => .error "tool must be a known tool"
          | some tool =>
            match asStr (raw.getField "color") with
            | none => .error "color required"
            | some color =>
              match asNum (raw.getField "w") with
              | none => .error "w required"
              | some w0 =>
                match asNum (raw.getField "x"), asNum (raw.getField "y") with
                | some x, some y =>
                  let w := max 1 (min 64 w0)
                  .ok (.strokeStart strokeId tool color w x y)
                | _, _ => .error "x,y required"
      else if t = "stroke_points" then
        match asStr (raw.getField "strokeId") with
        | none => .error "strokeId required"
        | some strokeId =>
          match asPts (raw.getField "pts") with
          | none => .error "pts must be array of pairs"
          | some pts => .ok (.strokePoints strokeId (pts.take 200))
      else if t = "stroke_end" then
        match asStr (raw.getField "strokeId") with
        | none => .error "strokeId required"
        | some strokeId => .ok (.strokeEnd strokeId)
      else .error ("unknown op type: " ++ t)

structure JoinPayload where
  roomId : String
  name : Option String
  mode : Mode
  clientId : Option String
deriving Repr

/-- `validateJoin`: note that a `clientId` longer than 64 units is dropped
(set to `undefined`), not truncated. -/
def validateJoin (raw : JsVal) : Except String JoinPayload :=
  if ¬ isObjLike raw then .error "join payload must be an object"
  else
    match asStr (raw.getField "roomId") with
    | none => .error "roomId is required"
    | some roomId =>
      let name : Option String :=
        match raw.getField "name" with
        | some (.str s) => some (s.take 32)
        | _ => none
      let mode : Mode :=
        match raw.getField "mode" with
        | some (.str s) => if s = "view" then .view else .edit
        | _ => .edit
      let clientId : Option String :=
        match raw.getField "clientId" with
        | some (.str s) => if s.length ≤ 64 then some s else none
        | _ => none
      .ok { roomId := roomId, name := name, mode := mode, clientId := clientId }

/-- The join handler's user-id resolution (server/src/server.ts, `socket.on("join")`):
`(clientId && clientId.length > 0) ? clientId : socket.id`. -/
def resolveUserId (clientId : Option String) (socketId : String) : String :=
  match clientId with
  | some cid => if cid.length > 0 then cid else socketId
  | none => socketId

/-! ## Room and the sequenced op dispatcher (server/src/rooms.ts, server/src/server.ts) -/

structure RoomUser where
  socketId : String
  userId : String
  name : String
  color : String
  mode : Mode
deriving DecidableEq, Repr

structure Room where
  roomId : String
  seq : ℕ
  users : List (String × RoomUser)
  drawing : DrawingState
  lastPersistAt : ℕ
deriving DecidableEq, Repr

/-- `Room.bumpSeq`. -/
def bumpSeq (room : Room) : ℕ × Room :=
  (room.seq + 1, { room with seq := room.seq + 1 })

/-- `Room.maybePersist`: persists at most once per 2000 ms; returns the
snapshot written to disk, if any. -/
def maybePersist (now : ℕ) (room : Room) : Room × Option DrawingStatePersisted :=
  if now - room.lastPersistAt < 2000 then (room, none)
  else ({ room with lastPersistAt := now },
    some (exportPersisted room.seq room.drawing))

inductive MsgAck
  | acked (seq : ℕ)
  | ackedNoOp
  | ackedErr (e : String)
deriving DecidableEq, Repr

/-- The write-op test of the `msg` handler. -/
def isWriteOp : ClientOp → Bool
  | .strokeStart _ _ _ _ _ _ => true
  | .strokePoints _ _ => true
  | .strokeEnd _ => true
  | .undo => true
  | .redo => true

/-- The `socket.on("msg")` handler (server/src/server.ts): returns the ack sent
to the sender, the updated room (if any), and the envelopes broadcast to the
room.  `socketRoomId` is `socket.data.roomId`; `room?` is the rooms-manager
lookup result. -/
def handleMsg (now : ℕ) (socketRoomId : Option String) (room? : Option Room)
    (socketId : String) (raw : JsVal) : MsgAck × Option Room × List OpEnvelope :=
  match socketRoomId with
  | none => (.ackedErr "not joined", room?, [])
  | some _ =>
    match room? with
    | none => (.ackedErr "room missing", none, [])
    | some room =>
      match jsMapGet room.users socketId with
      | none => (.ackedErr "user missing", some room, [])
      | some user =>
        match validateClientOp raw with
        | .error e => (.ackedErr e, some room, [])
        | .ok op =>
          if isWriteOp op ∧ user.mode = .view then
            (.ackedErr "view-only user cannot modify canvas", some room, [])
          else
            match applyClientOp now user.userId op room.drawing with
            | (.err e, _) => (.ackedErr e, some room, [])
            | (.ok none, d2) => (.ackedNoOp, some { room with drawing := d2 }, [])
            | (.ok (some b), d2) =>
              let (seq, room2) := bumpSeq { room with drawing := d2 }
              let env : OpEnvelope := { seq := seq, op := b, byUser := user.userId, ts := now }
              let room3 := (maybePersist now room2).1
              (.acked seq, some room3, [env])

/-! ## Client mirror store (client/src/state/roomStore.ts) -/

structure RoomState where
  connected : Bool
  roomId : Option String
  selfUserId : Option String
  seq : ℕ
  users : List (String × RoomUser)
  strokes : List (String × StrokeRecord)
  undone : List String
  inProgress : List (String × StrokeRecord)
deriving DecidableEq, Repr

/-- `Store.applyOp` (the private helper of `applyEnvelope`). -/
def storeApplyOp (now : ℕ) (op : ServerOp) (byUser : String) (st : RoomState) :
    RoomState :=
  match op with
  | .strokeStart strokeId tool color w x y =>
    let r : StrokeRecord :=
      { id := strokeId, userId := byUser, tool := tool, color := color, w := w,
        points := [(x, y)], committed := false, createdAt := now, updatedAt := now }
    { st with inProgress := jsMapSet st.inProgress strokeId r }
  | .strokePoints strokeId pts =>
    match jsMapGet st.inProgress strokeId with
    | none => st
    | some r =>
      let r2 := { r with points := r.points ++ pts, updatedAt := now }
      { st with inProgress := jsMapSet st.inProgress strokeId r2 }
  | .strokeEnd strokeId =>
    match jsMapGet st.inProgress strokeId with
    | none => st
    | some r =>
      let r2 := { r with committed := true, updatedAt := now }
      { st with
          inProgress := jsMapDelete st.inProgress strokeId,
          strokes := jsMapSet st.strokes strokeId r2,
          undone := jsSetDelete st.undone strokeId }
  | .undoApplied strokeId => { st with undone := jsSetAdd st.undone strokeId }
  | .redoApplied strokeId => { st with undone := jsSetDelete st.undone strokeId }

/-- `Store.applyEnvelope`: records the envelope's seq, then applies its op. -/
def storeApplyEnvelope (now : ℕ) (env : OpEnvelope) (st : RoomState) : RoomState :=
  storeApplyOp now env.op env.byUser { st with seq := env.seq }

/-! ## Client reorder buffer (client/src/net/socket.ts, `RealtimeClient`) -/

structure ClientBuf where
  expectedSeq : ℕ
  pending : List (ℕ × OpEnvelope)
  store : RoomState
deriving DecidableEq, Repr

/-- JS truthiness test `!state.roomId`: true for `null` and for `""`. -/
def roomIdFalsy : Option String → Bool
  | none => true
  | some s => s.length = 0

/-- The `while (this.pending.has(this.expectedSeq))` drain loop.  Each
iteration deletes the entry it consumes, so `pending.length` bounds the
iteration count; the loop is run with exactly that much fuel.  Returns the
final `expectedSeq`, the remaining pending map, the final mirror state, and
the envelopes applied, in application order. -/
def drainLoop (now : ℕ) :
    ℕ → ℕ → List (ℕ × OpEnvelope) → RoomState →
    ℕ × List (ℕ × OpEnvelope) × RoomState × List OpEnvelope
  | 0, expected, pending, st => (expected, pending, st, [])
  | fuel + 1, expected, pending, st =>
    match jsMapGet pending expected with
    | none => (expected, pending, st, [])
    | some env =>
      let pending2 := jsMapDelete pending expected
      let st2 := storeApplyEnvelope now env st
      let out := drainLoop now fuel (expected + 1) pending2 st2
      (out.1, out.2.1, out.2.2.1, env :: out.2.2.2)

/-- `RealtimeClient.handleEnvelope`: returns the new client state and the
envelopes applied to the mirror, in application order. -/
def handleEnvelope (now : ℕ) (env : OpEnvelope) (c : ClientBuf) :
    ClientBuf × List OpEnvelope :=
  if roomIdFalsy c.store.roomId then (c, [])
  else if env.seq < c.expectedSeq then (c, [])
  else if env.seq > c.expectedSeq then
    ({ c with pending := jsMapSet c.pending env.seq env }, [])
  else
    let st1 := storeApplyEnvelope now env c.store
    let out := drainLoop now c.pending.length (c.expectedSeq + 1) c.pending st1
    ({ expectedSeq := out.1, pending := out.2.1, store := out.2.2.1 },
      env :: out.2.2.2)

/-- Folding a list of `(now, userId, op)` triples through `applyClientOp`
from a given state (failed ops leave the state unchanged by construction,
mirroring the source's early returns). -/
def runOps (ops : List (ℕ × String × ClientOp)) (s : DrawingState) : DrawingState :=
  ops.foldl (fun st p => (applyClientOp p.1 p.2.1 p.2.2 st).2) s

/-- One undo request (the undo case of `applyClientOp` reads neither the
clock nor the user id, see `undo_selects_latest_active`). -/
def applyUndo (s : DrawingState) : DrawingState :=
  (applyClientOp 0 "" ClientOp.undo s).2

/-- One redo request. -/
def applyRedo (s : DrawingState) : DrawingState :=
  (applyClientOp 0 "" ClientOp.redo s).2

/-- The ids of the active committed strokes, in commit order: committed and
not undone. -/
def activeIds (s : DrawingState) : List String :=
  s.committedOrder.filter (fun id => decide (id ∈ s.committed ∧ id ∉ s.undone))

/-- A synced client mirror used in the out-of-order-delivery scenario. -/
def scenarioStore : RoomState :=
  { connected := true, roomId := some "room", selfUserId := none, seq := 4,
    users := [], strokes := [], undone := [], inProgress := [] }

/-- Reorder-buffer state with `expectedSeq = 5` and nothing buffered. -/
def scenarioBuf : ClientBuf :=
  { expectedSeq := 5, pending := [], store := scenarioStore }

/-- A server envelope with sequence number `n`. -/
def scenarioEnv (n : ℕ) : OpEnvelope :=
  { seq := n, op := ServerOp.undoApplied (toString n), byUser := "u", ts := 0 }

/-- A single editing user bound to socket "sock1", for concrete dispatcher
scenarios. -/
def noopUser : RoomUser :=
  { socketId := "sock1", userId := "A", name := "User-A", color := "#ef4444",
    mode := Mode.edit }

/-- A fresh room containing only `noopUser`. -/
def noopRoom : Room :=
  { roomId := "room", seq := 0, users := [("sock1", noopUser)],
    drawing := DrawingState.init, lastPersistAt := 0 }

/-! ## Lemmas about the container primitives -/

section Containers

variable {κ α : Type} [DecidableEq κ]

theorem jsMapGet_nil {k : κ} : jsMapGet ([] : List (κ × α)) k = none := rfl

theorem jsMapGet_cons_self {m : List (κ × α)} {q : κ × α} {k : κ} (h : q.1 = k) :
    jsMapGet (q :: m) k = some q.2 := by
  unfold jsMapGet
  rw [List.find?_cons_of_pos _ (by simpa using h)]
  rfl

theorem jsMapGet_cons_ne {m : List (κ × α)} {q : κ × α} {k : κ} (h : q.1 ≠ k) :
    jsMapGet (q :: m) k = jsMapGet m k := by
  unfold jsMapGet
  rw [List.find?_cons_of_neg _ (by simpa using h)]

theorem jsMapGet_append {m1 m2 : List (κ × α)} {k : κ} :
    jsMapGet (m1 ++ m2) k = (jsMapGet m1 k).or (jsMapGet m2 k) := by
  unfold jsMapGet
  rw [List.find?_append]
  cases List.find? (fun p => decide (p.1 = k)) m1 <;> simp

theorem jsMapGet_some_mem {m : List (κ × α)} {k : κ} {v : α}
    (h : jsMapGet m k = some v) : (k, v) ∈ m := by
  unfold jsMapGet at h
  cases hf : m.find? (fun p => decide (p.1 = k)) with
  | none => simp [hf] at h
  | some q =>
    have hq := List.mem_of_find?_eq_some hf
    have hk : q.1 = k := by simpa using List.find?_some hf
    simp only [hf, Option.map_some'] at h
    cases q
    simp_all

theorem jsMapHas_iff_mem_keys {m : List (κ × α)} {k : κ} :
    jsMapHas m k = true ↔ k ∈ m.map Prod.fst := by
  induction m with
  | nil => simp [jsMapHas, jsMapGet]
  | cons q rest ih =>
    by_cases hq : q.1 = k
    · simp only [jsMapHas, jsMapGet_cons_self hq, List.map_cons, List.mem_cons]
      simp [hq.symm]
    · simp only [jsMapHas] at ih ⊢
      rw [jsMapGet_cons_ne hq]
      simp only [List.map_cons, List.mem_cons]
      rw [ih]
      constructor
      · exact Or.inr
      · rintro (he | he)
        · exact absurd he.symm hq
        · exact he

theorem jsMapGet_eq_none_iff {m : List (κ × α)} {k : κ} :
    jsMapGet m k = none ↔ k ∉ m.map Prod.fst := by
  rw [← jsMapHas_iff_mem_keys]
  unfold jsMapHas
  cases h : jsMapGet m k <;> simp [h]

theorem jsMapGet_of_mem_nodup {m : List (κ × α)} {k : κ} {v : α}
    (hnd : (m.map Prod.fst).Nodup) (h : (k, v) ∈ m) : jsMapGet m k = some v := by
  induction m with
  | nil => simp at h
  | cons q rest ih =>
    simp only [List.map_cons, List.nodup_cons] at hnd
    rcases List.mem_cons.mp h with h1 | h1
    · subst h1
      exact jsMapGet_cons_self rfl
    · have hk : q.1 ≠ k := fun he => hnd.1 (he ▸ List.mem_map.mpr ⟨(k, v), h1, rfl⟩)
      rw [jsMapGet_cons_ne hk]
      exact ih hnd.2 h1

theorem keys_jsMapSet_of_has {m : List (κ × α)} {k : κ} {v : α}
    (h : jsMapHas m k = true) :
    (jsMapSet m k v).map Prod.fst = m.map Prod.fst := by
  unfold jsMapSet
  rw [if_pos h, List.map_map]
  apply List.map_congr_left
  intro p _
  by_cases hp : p.1 = k <;> simp [hp]

theorem keys_jsMapSet_of_not_has {m : List (κ × α)} {k : κ} {v : α}
    (h : jsMapHas m k = false) :
    (jsMapSet m k v).map Prod.fst = m.map Prod.fst ++ [k] := by
  unfold jsMapSet
  rw [if_neg (by simp [h])]
  simp

theorem mem_jsMapSet_cases {m : List (κ × α)} {k : κ} {v : α} {q : κ × α}
    (h : q ∈ jsMapSet m k v) : q = (k, v) ∨ (q ∈ m ∧ q.1 ≠ k) := by
  unfold jsMapSet at h
  by_cases hh : jsMapHas m k = true
  · rw [if_pos hh] at h
    rcases List.mem_map.mp h with ⟨p, hp, he⟩
    by_cases hpk : p.1 = k
    · left
      rw [if_pos hpk] at he
      exact he.symm
    · right
      rw [if_neg hpk] at he
      subst he
      exact ⟨hp, hpk⟩
  · rw [if_neg hh] at h
    rcases List.mem_append.mp h with h1 | h1
    · right
      refine ⟨h1, fun hk => ?_⟩
      have hk2 : k ∈ m.map Prod.fst := hk ▸ List.mem_map.mpr ⟨q, h1, rfl⟩
      exact hh (jsMapHas_iff_mem_keys.mpr hk2)
    · left
      simpa using h1

theorem jsMapGet_set_self {m : List (κ × α)} {k : κ} {v : α} :
    jsMapGet (jsMapSet m k v) k = some v := by
  unfold jsMapSet
  by_cases hh : jsMapHas m k = true
  · rw [if_pos hh]
    have hk : k ∈ m.map Prod.fst := jsMapHas_iff_mem_keys.mp hh
    clear hh
    induction m with
    | nil => simp at hk
    | cons q rest ih =>
      simp only [List.map_cons]
      by_cases hq : q.1 = k
      · rw [if_pos hq]
        exact jsMapGet_cons_self rfl
      · rw [if_neg hq]
        rw [jsMapGet_cons_ne hq]
        apply ih
        simp only [List.map_cons, List.mem_cons] at hk
        rcases hk with h1 | h1
        · exact absurd h1.symm hq
        · exact h1
  · rw [if_neg hh]
    have hnone : jsMapGet m k = none := by
      cases hg : jsMapGet m k with
      | none => rfl
      | some w => exact absurd (by simp [jsMapHas, hg]) hh
    rw [jsMapGet_append, hnone, Option.none_or]
    exact jsMapGet_cons_self rfl

theorem jsMapGet_set_ne {m : List (κ × α)} {k k2 : κ} {v : α} (h : k2 ≠ k) :
    jsMapGet (jsMapSet m k v) k2 = jsMapGet m k2 := by
  unfold jsMapSet
  by_cases hh : jsMapHas m k = true
  · rw [if_pos hh]
    clear hh
    induction m with
    | nil => rfl
    | cons q rest ih =>
      simp only [List.map_cons]
      by_cases hq : q.1 = k
      · rw [if_pos hq]
        rw [jsMapGet_cons_ne (show ((k, v) : κ × α).1 ≠ k2 from fun he => h he.symm)]
        rw [jsMapGet_cons_ne (show q.1 ≠ k2 from hq ▸ fun he => h he.symm)]
        exact ih
      · rw [if_neg hq]
        by_cases hq2 : q.1 = k2
        · rw [jsMapGet_cons_self hq2, jsMapGet_cons_self hq2]
        · rw [jsMapGet_cons_ne hq2, jsMapGet_cons_ne hq2]
          exact ih
  · rw [if_neg hh]
    rw [jsMapGet_append]
    have h1 : jsMapGet [(k, v)] k2 = none := by
      rw [jsMapGet_cons_ne (show ((k, v) : κ × α).1 ≠ k2 from fun he => h he.symm)]
      rfl
    rw [h1]
    cases jsMapGet m k2 <;> rfl

theorem jsMapGet_delete_ne {m : List (κ × α)} {k k2 : κ} (h : k2 ≠ k) :
    jsMapGet (jsMapDelete m k) k2 = jsMapGet m k2 := by
  unfold jsMapDelete
  induction m with
  | nil => rfl
  | cons q rest ih =>
    rw [List.filter_cons]
    by_cases hq : q.1 = k
    · rw [if_neg (by simpa using hq)]
      rw [jsMapGet_cons_ne (show q.1 ≠ k2 from hq ▸ fun he => h he.symm)]
      exact ih
    · rw [if_pos (by simpa using hq)]
      by_cases hq2 : q.1 = k2
      · rw [jsMapGet_cons_self hq2, jsMapGet_cons_self hq2]
      · rw [jsMapGet_cons_ne hq2, jsMapGet_cons_ne hq2]
        exact ih

theorem jsMapDelete_length_lt {m : List (κ × α)} {k : κ} {v : α}
    (h : jsMapGet m k = some v) : (jsMapDelete m k).length < m.length := by
  unfold jsMapDelete
  rw [List.length_filter_lt_length_iff_exists]
  exact ⟨(k, v), jsMapGet_some_mem h, by simp⟩

theorem mem_jsSetAdd {s : List κ} {x y : κ} :
    y ∈ jsSetAdd s x ↔ y ∈ s ∨ y = x := by
  unfold jsSetAdd
  by_cases h : x ∈ s
  · rw [if_pos h]
    constructor
    · exact Or.inl
    · rintro (h1 | rfl)
      · exact h1
      · exact h
  · rw [if_neg h]
    simp

theorem jsSetAdd_of_not_mem {s : List κ} {x : κ} (h : x ∉ s) :
    jsSetAdd s x = s ++ [x] := by
  unfold jsSetAdd
  rw [if_neg h]

theorem jsSetAdd_nodup {s : List κ} {x : κ} (h : s.Nodup) :
    (jsSetAdd s x).Nodup := by
  unfold jsSetAdd
  by_cases hm : x ∈ s
  · rwa [if_pos hm]
  · rw [if_neg hm]
    simpa [List.nodup_append] using ⟨h, fun he => hm he⟩

theorem jsSetDelete_nodup {s : List κ} {x : κ} (h : s.Nodup) :
    (jsSetDelete s x).Nodup :=
  h.erase x

theorem mem_jsSetDelete {s : List κ} {x y : κ} (hnd : s.Nodup) :
    y ∈ jsSetDelete s x ↔ y ≠ x ∧ y ∈ s :=
  hnd.mem_erase_iff

theorem jsSetDelete_subset {s : List κ} {x y : κ} (h : y ∈ jsSetDelete s x) :
    y ∈ s :=
  List.erase_subset x s h

end Containers

/-! ## Lemmas about the undo/redo scans -/

theorem undoScan_eq_head?_filter (c u : List String) (l : List String) :
    undoScan c u l = (l.filter (fun id => decide (id ∈ c ∧ id ∉ u))).head? := by
  induction l with
  | nil => rfl
  | cons id rest ih =>
    rw [undoScan, List.filter_cons]
    by_cases h : id ∈ c ∧ id ∉ u
    · rw [if_pos h, if_pos (by simpa using h)]
      rfl
    · rw [if_neg h, if_neg (by simpa using h)]
      exact ih

theorem undoScan_reverse_eq_getLast? (c u : List String) (l : List String) :
    undoScan c u l.reverse = (l.filter (fun id => decide (id ∈ c ∧ id ∉ u))).getLast? := by
  rw [undoScan_eq_head?_filter, List.filter_reverse, List.head?_reverse]

theorem undoScan_some_spec {c u : List String} {l : List String} {id : String}
    (h : undoScan c u l = some id) : id ∈ l ∧ id ∈ c ∧ id ∉ u := by
  induction l with
  | nil => simp [undoScan] at h
  | cons x rest ih =>
    rw [undoScan] at h
    by_cases hx : x ∈ c ∧ x ∉ u
    · rw [if_pos hx] at h
      cases h
      exact ⟨List.mem_cons_self _ rest, hx⟩
    · rw [if_neg hx] at h
      rcases ih h with ⟨h1, h2⟩
      exact ⟨List.mem_cons_of_mem x h1, h2⟩

theorem redoScan_some_spec {c u : List String} {l rest : List String} {id : String}
    (h : redoScan c u l = some (id, rest)) :
    id ∈ l ∧ id ∈ c ∧ id ∈ u ∧ rest.Sublist l ∧ (l.Nodup → id ∉ rest) := by
  induction l generalizing rest with
  | nil => simp [redoScan] at h
  | cons x rest0 ih =>
    rw [redoScan] at h
    by_cases hx : x ∈ c ∧ x ∈ u
    · rw [if_pos hx] at h
      cases h
      refine ⟨List.mem_cons_self _ rest0, hx.1, hx.2, List.sublist_cons_self _ rest0, ?_⟩
      intro hnd
      exact (List.nodup_cons.mp hnd).1
    · rw [if_neg hx] at h
      rcases ih h with ⟨h1, h2, h3, h4, h5⟩
      refine ⟨List.mem_cons_of_mem x h1, h2, h3, h4.trans (List.sublist_cons_self x rest0), ?_⟩
      intro hnd
      exact h5 (List.nodup_cons.mp hnd).2

/-! ## The drawing-state invariant -/

/-- The state invariant maintained by `applyClientOp` (spec §3, strengthened
with the duplicate-freeness facts needed for the inductive step). -/
def InvFull (s : DrawingState) : Prop :=
  (∀ p ∈ s.strokes, p.2.id = p.1) ∧
  (s.strokes.map Prod.fst).Nodup ∧
  s.committedOrder.Nodup ∧
  s.committed.Nodup ∧
  s.undone.Nodup ∧
  s.redoStack.Nodup ∧
  (∀ id ∈ s.committed, id ∈ s.committedOrder) ∧
  (∀ id ∈ s.committedOrder, id ∈ s.committed) ∧
  (∀ p ∈ s.strokes, (p.2.committed = true ↔ p.1 ∈ s.committed)) ∧
  (∀ id ∈ s.committed, id ∈ s.strokes.map Prod.fst) ∧
  (∀ id ∈ s.undone, id ∈ s.committed) ∧
  (∀ id ∈ s.redoStack, id ∈ s.committed ∧ id ∈ s.undone)

instance (s : DrawingState) : Decidable (InvFull s) := by
  unfold InvFull
  infer_instance

theorem invFull_init : InvFull DrawingState.init := by
  decide

theorem invFull_applyClientOp (now : ℕ) (uid : String) (op : ClientOp)
    (s : DrawingState) (h : InvFull s) : InvFull (applyClientOp now uid op s).2 := by
  obtain ⟨i1, i2, i3, i4, i5, i6, i7, i8, i9, i10, i11, i12⟩ := h
  cases op with
  | strokeStart sid tool color w x y =>
    simp only [applyClientOp]
    split
    · exact ⟨i1, i2, i3, i4, i5, i6, i7, i8, i9, i10, i11, i12⟩
    · next hh =>
      have hkeys : sid ∉ s.strokes.map Prod.fst := fun hm =>
        hh (jsMapHas_iff_mem_keys.mpr hm)
      have hcomm : sid ∉ s.committed := fun hc => hkeys (i10 _ hc)
      have hhf : jsMapHas s.strokes sid = false := by
        cases hb : jsMapHas s.strokes sid
        · rfl
        · exact absurd hb hh
      refine ⟨?_, ?_, i3, i4, i5, i6, i7, i8, ?_, ?_, i11, i12⟩
      · intro p hp
        rcases mem_jsMapSet_cases hp with rfl | ⟨hpm, _⟩
        · rfl
        · exact i1 p hpm
      · rw [keys_jsMapSet_of_not_has hhf]
        exact List.Nodup.append i2 (List.nodup_singleton sid)
          (List.disjoint_singleton.mpr hkeys)
      · intro p hp
        rcases mem_jsMapSet_cases hp with rfl | ⟨hpm, _⟩
        · simpa using hcomm
        · exact i9 p hpm
      · intro id hid
        rw [keys_jsMapSet_of_not_has hhf]
        exact List.mem_append_left _ (i10 _ hid)
  | strokePoints sid pts =>
    simp only [applyClientOp]
    split
    · exact ⟨i1, i2, i3, i4, i5, i6, i7, i8, i9, i10, i11, i12⟩
    · next r hr =>
      split
      · exact ⟨i1, i2, i3, i4, i5, i6, i7, i8, i9, i10, i11, i12⟩
      · split
        · exact ⟨i1, i2, i3, i4, i5, i6, i7, i8, i9, i10, i11, i12⟩
        · have hmem : (sid, r) ∈ s.strokes := jsMapGet_some_mem hr
          have has : jsMapHas s.strokes sid = true := by
            unfold jsMapHas
            rw [hr]
            rfl
          refine ⟨?_, ?_, i3, i4, i5, i6, i7, i8, ?_, ?_, i11, i12⟩
          · intro p hp
            rcases mem_jsMapSet_cases hp with rfl | ⟨hpm, _⟩
            · exact i1 (sid, r) hmem
            · exact i1 p hpm
          · rw [keys_jsMapSet_of_has has]
            exact i2
          · intro p hp
            rcases mem_jsMapSet_cases hp with rfl | ⟨hpm, _⟩
            · exact i9 (sid, r) hmem
            · exact i9 p hpm
          · intro id hid
            rw [keys_jsMapSet_of_has has]
            exact i10 _ hid
  | strokeEnd sid =>
    simp only [applyClientOp]
    split
    · exact ⟨i1, i2, i3, i4, i5, i6, i7, i8, i9, i10, i11, i12⟩
    · next r hr =>
      split
      · exact ⟨i1, i2, i3, i4, i5, i6, i7, i8, i9, i10, i11, i12⟩
      · next hc =>
        split
        · exact ⟨i1, i2, i3, i4, i5, i6, i7, i8, i9, i10, i11, i12⟩
        · have hmem : (sid, r) ∈ s.strokes := jsMapGet_some_mem hr
          have has : jsMapHas s.strokes sid = true := by
            unfold jsMapHas
            rw [hr]
            rfl
          have hsidkeys : sid ∈ s.strokes.map Prod.fst :=
            List.mem_map.mpr ⟨(sid, r), hmem, rfl⟩
          have hcomm : sid ∉ s.committed := fun hcm => hc ((i9 _ hmem).mpr hcm)
          have horder : sid ∉ s.committedOrder := fun hor => hcomm (i8 _ hor)
          refine ⟨?_, ?_, ?_, jsSetAdd_nodup i4, jsSetDelete_nodup i5,
            List.nodup_nil, ?_, ?_, ?_, ?_, ?_, ?_⟩
          · intro p hp
            rcases mem_jsMapSet_cases hp with rfl | ⟨hpm, _⟩
            · exact i1 (sid, r) hmem
            · exact i1 p hpm
          · rw [keys_jsMapSet_of_has has]
            exact i2
          · exact List.Nodup.append i3 (List.nodup_singleton sid)
              (List.disjoint_singleton.mpr horder)
          · intro id hid
            rcases mem_jsSetAdd.mp hid with h1 | rfl
            · exact List.mem_append_left _ (i7 _ h1)
            · exact List.mem_append_right _ (List.mem_singleton.mpr rfl)
          · intro id hid
            rcases List.mem_append.mp hid with h1 | h1
            · exact mem_jsSetAdd.mpr (Or.inl (i8 _ h1))
            · exact mem_jsSetAdd.mpr (Or.inr (List.mem_singleton.mp h1))
          · intro p hp
            rcases mem_jsMapSet_cases hp with rfl | ⟨hpm, hpne⟩
            · simp [mem_jsSetAdd]
            · constructor
              · intro hcm
                exact mem_jsSetAdd.mpr (Or.inl ((i9 p hpm).mp hcm))
              · intro hcm
                rcases mem_jsSetAdd.mp hcm with h1 | h1
                · exact (i9 p hpm).mpr h1
                · exact absurd h1 hpne
          · intro id hid
            rw [keys_jsMapSet_of_has has]
            rcases mem_jsSetAdd.mp hid with h1 | rfl
            · exact i10 _ h1
            · exact hsidkeys
          · intro id hid
            exact mem_jsSetAdd.mpr (Or.inl (i11 _ (jsSetDelete_subset hid)))
          · intro id hid
            exact absurd hid (List.not_mem_nil id)
  | undo =>
    simp only [applyClientOp]
    split
    · next a heq =>
      obtain ⟨hmem, hac, hau⟩ := undoScan_some_spec heq
      have haord : a ∈ s.committedOrder := List.mem_reverse.mp hmem
      have hastk : a ∉ s.redoStack := fun hrs => hau (i12 _ hrs).2
      refine ⟨i1, i2, i3, i4, jsSetAdd_nodup i5, ?_, i7, i8, i9, i10, ?_, ?_⟩
      · exact List.Nodup.append i6 (List.nodup_singleton a)
          (List.disjoint_singleton.mpr hastk)
      · intro id hid
        rcases mem_jsSetAdd.mp hid with h1 | rfl
        · exact i11 _ h1
        · exact hac
      · intro id hid
        rcases List.mem_append.mp hid with h1 | h1
        · exact ⟨(i12 _ h1).1, mem_jsSetAdd.mpr (Or.inl (i12 _ h1).2)⟩
        · rw [List.mem_singleton.mp h1]
          exact ⟨hac, mem_jsSetAdd.mpr (Or.inr rfl)⟩
    · exact ⟨i1, i2, i3, i4, i5, i6, i7, i8, i9, i10, i11, i12⟩
  | redo =>
    simp only [applyClientOp]
    split
    · next a rest heq =>
      obtain ⟨hmem, hac, hau, hsub, hnotin⟩ := redoScan_some_spec heq
      have hrevnd : s.redoStack.reverse.Nodup := List.nodup_reverse.mpr i6
      have hanotin : a ∉ rest := hnotin hrevnd
      refine ⟨i1, i2, i3, i4, jsSetDelete_nodup i5, ?_, i7, i8, i9, i10, ?_, ?_⟩
      · exact List.nodup_reverse.mpr (hsub.nodup hrevnd)
      · intro id hid
        exact i11 _ (jsSetDelete_subset hid)
      · intro id hid
        have hidrest : id ∈ rest := List.mem_reverse.mp hid
        have hidstk : id ∈ s.redoStack :=
          List.mem_reverse.mp (hsub.subset hidrest)
        have hne : id ≠ a := fun he => hanotin (he ▸ hidrest)
        exact ⟨(i12 _ hidstk).1,
          (mem_jsSetDelete i5).mpr ⟨hne, (i12 _ hidstk).2⟩⟩
    · refine ⟨i1, i2, i3, i4, i5, List.nodup_nil, i7, i8, i9, i10, i11, ?_⟩
      intro id hid
      exact absurd hid (List.not_mem_nil id)

theorem invFull_runOps (ops : List (ℕ × String × ClientOp)) (s : DrawingState)
    (h : InvFull s) : InvFull (runOps ops s) := by
  induction ops generalizing s with
  | nil => exact h
  | cons p rest ih =>
    exact ih ((applyClientOp p.1 p.2.1 p.2.2 s).2) (invFull_applyClientOp p.1 p.2.1 p.2.2 s h)

/-- Claim C2: in every state reachable from the empty `DrawingState` by any
sequence of `applyClientOp` calls (any users, any ops; failed calls leave the
state unchanged), `undone` is a subset of `committed` and every id on
`redoStack` is in both `committed` and `undone`. -/
theorem reachable_undo_redo_invariants (ops : List (ℕ × String × ClientOp)) :
    (∀ id ∈ (runOps ops DrawingState.init).undone,
        id ∈ (runOps ops DrawingState.init).committed) ∧
    (∀ id ∈ (runOps ops DrawingState.init).redoStack,
        id ∈ (runOps ops DrawingState.init).committed ∧
        id ∈ (runOps ops DrawingState.init).undone) := by
  have h := invFull_runOps ops DrawingState.init invFull_init
  exact ⟨h.2.2.2.2.2.2.2.2.2.2.1, h.2.2.2.2.2.2.2.2.2.2.2⟩

/-- Claim C1: `applyClientOp` on an undo request is independent of the issuing
user (and of the clock), and behaves as follows: if the last id in
`committedOrder` that is in `committed` and not in `undone` exists, it is
added to `undone`, pushed onto `redoStack`, and broadcast as
`undo/strokeId`; if no such id exists, the call succeeds with no broadcast
and the state is unchanged. -/
theorem undo_selects_latest_active (now : ℕ) (userId : String) (s : DrawingState) :
    (∀ now2 userId2, applyClientOp now2 userId2 ClientOp.undo s =
        applyClientOp now userId ClientOp.undo s) ∧
    (match (s.committedOrder.filter
        (fun id => decide (id ∈ s.committed ∧ id ∉ s.undone))).getLast? with
     | some a =>
        applyClientOp now userId ClientOp.undo s =
          (ApplyRes.ok (some (ServerOp.undoApplied a)),
            { s with undone := jsSetAdd s.undone a, redoStack := s.redoStack ++ [a] })
     | none => applyClientOp now userId ClientOp.undo s = (ApplyRes.ok none, s)) := by
  constructor
  · intro now2 userId2
    rfl
  · rw [← undoScan_reverse_eq_getLast? s.committed s.undone s.committedOrder]
    cases heq : undoScan s.committed s.undone s.committedOrder.reverse with
    | some a => simp only [applyClientOp, heq]
    | none => simp only [applyClientOp, heq]

/-- Claim C6: whenever `applyClientOp` reports an error, the drawing state is
exactly unchanged; in particular a second `stroke_start` with an existing
stroke id fails with "strokeId already exists" and leaves the state (hence
the original stroke's record) untouched. -/
theorem applyClientOp_error_leaves_state (now : ℕ) (uid : String) (op : ClientOp)
    (s : DrawingState) :
    (∀ e, (applyClientOp now uid op s).1 = ApplyRes.err e →
      (applyClientOp now uid op s).2 = s) ∧
    (∀ sid tool color w x y, jsMapHas s.strokes sid = true →
      applyClientOp now uid (ClientOp.strokeStart sid tool color w x y) s =
        (ApplyRes.err "strokeId already exists", s)) := by
  constructor
  · intro e
    cases op <;>
      (simp only [applyClientOp]
       repeat' split) <;>
      (intro h
       first
       | rfl
       | simp at h)
  · intro sid tool color w x y hhas
    simp only [applyClientOp]
    rw [if_pos hhas]

/-- Witness for C6 at a concrete state: a duplicate `stroke_start` errs and
returns the state unchanged, and an unknown-id `stroke_points` also leaves
the state unchanged. -/
theorem applyClientOp_error_leaves_state_witness :
    applyClientOp 7 "B" (ClientOp.strokeStart "a" Tool.eraser "blue" 4 0 0)
        (applyClientOp 0 "A" (ClientOp.strokeStart "a" Tool.brush "red" 3 1 2)
          DrawingState.init).2 =
      (ApplyRes.err "strokeId already exists",
        (applyClientOp 0 "A" (ClientOp.strokeStart "a" Tool.brush "red" 3 1 2)
          DrawingState.init).2) ∧
    (applyClientOp 7 "B" (ClientOp.strokePoints "zz" [])
        (applyClientOp 0 "A" (ClientOp.strokeStart "a" Tool.brush "red" 3 1 2)
          DrawingState.init).2).2 =
      (applyClientOp 0 "A" (ClientOp.strokeStart "a" Tool.brush "red" 3 1 2)
        DrawingState.init).2 := by
  constructor
  · exact (applyClientOp_error_leaves_state 7 "B"
      (ClientOp.strokePoints "zz" []) _).2 "a" Tool.eraser "blue" 4 0 0 (by decide)
  · exact (applyClientOp_error_leaves_state 7 "B"
      (ClientOp.strokePoints "zz" []) _).1 "unknown strokeId" (by decide)

theorem redo_undo_cancel (s : DrawingState) (h : activeIds s ≠ []) :
    applyRedo (applyUndo s) = s := by
  obtain ⟨a, heq⟩ : ∃ a, (activeIds s).getLast? = some a := by
    cases hg : (activeIds s).getLast? with
    | none => exact absurd (List.getLast?_eq_none_iff.mp hg) h
    | some a => exact ⟨a, rfl⟩
  have hscan : undoScan s.committed s.undone s.committedOrder.reverse = some a := by
    rw [undoScan_reverse_eq_getLast?]
    exact heq
  obtain ⟨_, hac, hau⟩ := undoScan_some_spec hscan
  have h1 : applyUndo s =
      { s with undone := jsSetAdd s.undone a, redoStack := s.redoStack ++ [a] } := by
    simp only [applyUndo, applyClientOp, hscan]
  rw [h1]
  have hrev : (s.redoStack ++ [a]).reverse = a :: s.redoStack.reverse := by
    rw [List.reverse_append]
    rfl
  have hscan2 : redoScan s.committed (jsSetAdd s.undone a) (a :: s.redoStack.reverse)
      = some (a, s.redoStack.reverse) := by
    rw [redoScan]
    rw [if_pos ⟨hac, mem_jsSetAdd.mpr (Or.inr rfl)⟩]
  have herase : jsSetDelete (jsSetAdd s.undone a) a = s.undone := by
    rw [jsSetAdd_of_not_mem hau]
    unfold jsSetDelete
    rw [List.erase_append_right _ hau]
    simp
  simp only [applyRedo, applyClientOp, hrev, hscan2, herase, List.reverse_reverse]

theorem activeIds_applyUndo (s : DrawingState) (hnd : s.committedOrder.Nodup)
    (h : activeIds s ≠ []) :
    activeIds (applyUndo s) = (activeIds s).dropLast := by
  obtain ⟨a, heq⟩ : ∃ a, (activeIds s).getLast? = some a := by
    cases hg : (activeIds s).getLast? with
    | none => exact absurd (List.getLast?_eq_none_iff.mp hg) h
    | some a => exact ⟨a, rfl⟩
  have hscan : undoScan s.committed s.undone s.committedOrder.reverse = some a := by
    rw [undoScan_reverse_eq_getLast?]
    exact heq
  obtain ⟨_, hac, hau⟩ := undoScan_some_spec hscan
  have h1 : applyUndo s =
      { s with undone := jsSetAdd s.undone a, redoStack := s.redoStack ++ [a] } := by
    simp only [applyUndo, applyClientOp, hscan]
  rw [h1]
  have hsplit : (activeIds s).dropLast ++ [a] = activeIds s :=
    List.dropLast_append_getLast? a heq
  have hLnd : (activeIds s).Nodup := hnd.filter _
  have hadrop : a ∉ (activeIds s).dropLast := by
    have hnd2 : ((activeIds s).dropLast ++ [a]).Nodup := hsplit.symm ▸ hLnd
    rw [List.nodup_append] at hnd2
    intro hmem
    exact hnd2.2.2 hmem (List.mem_singleton.mpr rfl)
  show activeIds { s with undone := jsSetAdd s.undone a, redoStack := s.redoStack ++ [a] }
      = (activeIds s).dropLast
  unfold activeIds
  have step1 : (s.committedOrder.filter
      (fun id => decide (id ∈ s.committed ∧ id ∉ jsSetAdd s.undone a))) =
      (s.committedOrder.filter
        (fun id => decide (id ≠ a) && decide (id ∈ s.committed ∧ id ∉ s.undone))) := by
    apply List.filter_congr
    intro id _
    rw [← Bool.decide_and, decide_eq_decide]
    constructor
    · intro ⟨hc, hu⟩
      refine ⟨fun he => hu (mem_jsSetAdd.mpr (Or.inr he)),
        hc, fun hm => hu (mem_jsSetAdd.mpr (Or.inl hm))⟩
    · intro ⟨hne, hc, hu⟩
      refine ⟨hc, fun hm => ?_⟩
      rcases mem_jsSetAdd.mp hm with hm1 | hm1
      · exact hu hm1
      · exact hne hm1
  rw [step1, ← List.filter_filter]
  show List.filter (fun id => decide (id ≠ a)) (activeIds s) = (activeIds s).dropLast
  conv_lhs => rw [← hsplit]
  rw [List.filter_append]
  have h2 : List.filter (fun id => decide (id ≠ a)) [a] = [] := by simp
  have h3 : List.filter (fun id => decide (id ≠ a)) (activeIds s).dropLast
      = (activeIds s).dropLast := by
    rw [List.filter_eq_self]
    intro x hx
    simp only [decide_eq_true_eq]
    intro he
    exact hadrop (he ▸ hx)
  rw [h2, h3, List.append_nil]

theorem activeIds_undoN (n : ℕ) (s : DrawingState) (h : InvFull s)
    (hn : n ≤ (activeIds s).length) :
    InvFull (applyUndo^[n] s) ∧
    (activeIds (applyUndo^[n] s)).length = (activeIds s).length - n := by
  induction n with
  | zero => exact ⟨h, by simp⟩
  | succ n ih =>
    have hn2 : n ≤ (activeIds s).length := Nat.le_of_succ_le hn
    obtain ⟨hinv, hlen⟩ := ih hn2
    have hne : activeIds (applyUndo^[n] s) ≠ [] := by
      intro hnil
      rw [hnil] at hlen
      simp at hlen
      omega
    have hord : (applyUndo^[n] s).committedOrder.Nodup := hinv.2.2.1
    constructor
    · rw [Function.iterate_succ_apply']
      exact invFull_applyClientOp 0 "" ClientOp.undo _ hinv
    · rw [Function.iterate_succ_apply', activeIds_applyUndo _ hord hne,
        List.length_dropLast, hlen]
      omega

theorem redoN_undoN_cancel (n : ℕ) (s : DrawingState) (h : InvFull s)
    (hn : n ≤ (activeIds s).length) :
    applyRedo^[n] (applyUndo^[n] s) = s := by
  induction n with
  | zero => rfl
  | succ n ih =>
    have hn2 : n ≤ (activeIds s).length := Nat.le_of_succ_le hn
    obtain ⟨hinv, hlen⟩ := activeIds_undoN n s h hn2
    have hne : activeIds (applyUndo^[n] s) ≠ [] := by
      intro hnil
      rw [hnil] at hlen
      simp at hlen
      omega
    calc applyRedo^[n + 1] (applyUndo^[n + 1] s)
        = applyRedo^[n] (applyRedo (applyUndo (applyUndo^[n] s))) := by
          rw [Function.iterate_succ_apply' applyUndo n s,
            Function.iterate_succ_apply applyRedo n]
      _ = applyRedo^[n] (applyUndo^[n] s) := by rw [redo_undo_cancel _ hne]
      _ = s := ih hn2

/-- Claim C3: from a state satisfying the drawing-state invariant, applying
`n` undo requests followed by `n` redo requests (no intervening commit),
with `n` at most the number of active committed strokes, restores the
original set of active committed strokes; in particular one undo followed
by one redo restores the state exactly. -/
theorem undoN_redoN_restores_active_set (s : DrawingState) (n : ℕ)
    (h : InvFull s) (hn : n ≤ (activeIds s).length) :
    (∀ id, (id ∈ (applyRedo^[n] (applyUndo^[n] s)).committed ∧
            id ∉ (applyRedo^[n] (applyUndo^[n] s)).undone) ↔
           (id ∈ s.committed ∧ id ∉ s.undone)) ∧
    (activeIds s ≠ [] → applyRedo (applyUndo s) = s) := by
  constructor
  · rw [redoN_undoN_cancel n s h hn]
    intro id
    exact Iff.rfl
  · exact redo_undo_cancel s

/-- Witness for C3: two committed strokes, two undos, two redos. -/
theorem undoN_redoN_restores_active_set_witness :
    InvFull (runOps [(0, "A", ClientOp.strokeStart "a" Tool.brush "red" 3 0 0),
        (1, "A", ClientOp.strokeEnd "a"),
        (2, "B", ClientOp.strokeStart "b" Tool.brush "blue" 3 0 0),
        (3, "B", ClientOp.strokeEnd "b")] DrawingState.init) ∧
    2 ≤ (activeIds (runOps [(0, "A", ClientOp.strokeStart "a" Tool.brush "red" 3 0 0),
        (1, "A", ClientOp.strokeEnd "a"),
        (2, "B", ClientOp.strokeStart "b" Tool.brush "blue" 3 0 0),
        (3, "B", ClientOp.strokeEnd "b")] DrawingState.init)).length ∧
    (("a" ∈ (applyRedo^[2] (applyUndo^[2]
          (runOps [(0, "A", ClientOp.strokeStart "a" Tool.brush "red" 3 0 0),
            (1, "A", ClientOp.strokeEnd "a"),
            (2, "B", ClientOp.strokeStart "b" Tool.brush "blue" 3 0 0),
            (3, "B", ClientOp.strokeEnd "b")] DrawingState.init))).committed ∧
      "a" ∉ (applyRedo^[2] (applyUndo^[2]
          (runOps [(0, "A", ClientOp.strokeStart "a" Tool.brush "red" 3 0 0),
            (1, "A", ClientOp.strokeEnd "a"),
            (2, "B", ClientOp.strokeStart "b" Tool.brush "blue" 3 0 0),
            (3, "B", ClientOp.strokeEnd "b")] DrawingState.init))).undone) ↔
      ("a" ∈ (runOps [(0, "A", ClientOp.strokeStart "a" Tool.brush "red" 3 0 0),
            (1, "A", ClientOp.strokeEnd "a"),
            (2, "B", ClientOp.strokeStart "b" Tool.brush "blue" 3 0 0),
            (3, "B", ClientOp.strokeEnd "b")] DrawingState.init).committed ∧
        "a" ∉ (runOps [(0, "A", ClientOp.strokeStart "a" Tool.brush "red" 3 0 0),
            (1, "A", ClientOp.strokeEnd "a"),
            (2, "B", ClientOp.strokeStart "b" Tool.brush "blue" 3 0 0),
            (3, "B", ClientOp.strokeEnd "b")] DrawingState.init).undone)) := by
  refine ⟨by decide, by decide, ?_⟩
  exact (undoN_redoN_restores_active_set _ 2 (by decide) (by decide)).1 "a"

/-! ## Persist/restore roundtrip -/

theorem mem_exportPersisted_strokes {s : DrawingState} {q : ℕ} {r : StrokeRecord} :
    r ∈ (exportPersisted q s).strokes ↔
      ∃ id ∈ s.committedOrder, jsMapGet s.strokes id = some r ∧ r.committed = true := by
  unfold exportPersisted
  rw [List.mem_filterMap]
  constructor
  · rintro ⟨id, hid, hf⟩
    refine ⟨id, hid, ?_⟩
    cases hg : jsMapGet s.strokes id with
    | none => rw [hg] at hf; exact absurd hf (by simp)
    | some r0 =>
      rw [hg] at hf
      dsimp only at hf
      by_cases hc : r0.committed = true
      · rw [if_pos hc] at hf
        cases hf
        exact ⟨rfl, hc⟩
      · rw [if_neg hc] at hf
        exact absurd hf (by simp)
  · rintro ⟨id, hid, hg, hc⟩
    refine ⟨id, hid, ?_⟩
    rw [hg]
    dsimp only
    rw [if_pos hc]

theorem exportPersisted_strokes_committed {s : DrawingState} {q : ℕ} {r : StrokeRecord}
    (h : r ∈ (exportPersisted q s).strokes) : r.committed = true :=
  (mem_exportPersisted_strokes.mp h).choose_spec.2.2

theorem filterMap_ids_nodup (f : String → Option StrokeRecord) (l : List String)
    (hf : ∀ a r, f a = some r → r.id = a) (hnd : l.Nodup) :
    ((l.filterMap f).map StrokeRecord.id).Nodup := by
  induction l with
  | nil => exact List.nodup_nil
  | cons a rest ih =>
    rw [List.nodup_cons] at hnd
    rw [List.filterMap_cons]
    cases hfa : f a with
    | none => exact ih hnd.2
    | some r =>
      rw [List.map_cons, List.nodup_cons]
      refine ⟨?_, ih hnd.2⟩
      intro hmem
      rcases List.mem_map.mp hmem with ⟨r2, hr2, hid⟩
      rcases List.mem_filterMap.mp hr2 with ⟨b, hb, hfb⟩
      have : b = a := by
        rw [← hf b r2 hfb, hid, hf a r hfa]
      exact hnd.1 (this ▸ hb)

theorem foldl_jsMapSet_of_fresh :
    ∀ (E : List StrokeRecord) (m0 : List (String × StrokeRecord)),
    (m0.map Prod.fst ++ E.map StrokeRecord.id).Nodup →
    E.foldl (fun m r => jsMapSet m r.id r) m0 = m0 ++ E.map (fun r => (r.id, r)) := by
  intro E
  induction E with
  | nil => intro m0 _; simp
  | cons r E2 ih =>
    intro m0 hnd
    have hnd2 := hnd
    rw [List.map_cons, List.append_cons] at hnd2
    have hfresh : r.id ∉ m0.map Prod.fst := by
      rw [List.nodup_append] at hnd
      intro hmem
      exact hnd.2.2 hmem (List.mem_cons_self _ _)
    have hhf : jsMapHas m0 r.id = false := by
      cases hb : jsMapHas m0 r.id
      · rfl
      · exact absurd (jsMapHas_iff_mem_keys.mp hb) hfresh
    have hset : jsMapSet m0 r.id r = m0 ++ [(r.id, r)] := by
      unfold jsMapSet
      rw [if_neg (by simp [hhf])]
    show List.foldl (fun m r => jsMapSet m r.id r) (jsMapSet m0 r.id r) E2
        = m0 ++ (r.id, r) :: E2.map (fun r => (r.id, r))
    rw [hset]
    have hkeys : (m0 ++ [(r.id, r)]).map Prod.fst = m0.map Prod.fst ++ [r.id] := by
      simp
    have := ih (m0 ++ [(r.id, r)]) (by rw [hkeys]; exact hnd2)
    rw [this, List.append_assoc]
    rfl

theorem foldl_jsSetAdd_of_nodup :
    ∀ (l acc : List String), (acc ++ l).Nodup → l.foldl jsSetAdd acc = acc ++ l := by
  intro l
  induction l with
  | nil => intro acc _; simp
  | cons x l2 ih =>
    intro acc hnd
    have hnd2 := hnd
    rw [List.append_cons] at hnd2
    have hfresh : x ∉ acc := by
      rw [List.nodup_append] at hnd
      intro hmem
      exact hnd.2.2 hmem (List.mem_cons_self _ _)
    show List.foldl jsSetAdd (jsSetAdd acc x) l2 = acc ++ x :: l2
    rw [jsSetAdd_of_not_mem hfresh]
    rw [ih (acc ++ [x]) hnd2, List.append_assoc]
    rfl

theorem jsNewSet_eq_self {l : List String} (h : l.Nodup) : jsNewSet l = l :=
  foldl_jsSetAdd_of_nodup l [] (by simpa using h)

theorem fromPersisted_exportPersisted (s : DrawingState) (q : ℕ) (h : InvFull s) :
    fromPersisted (exportPersisted q s) =
      { strokes := (exportPersisted q s).strokes.map (fun r => (r.id, r)),
        committed := (exportPersisted q s).strokes.map StrokeRecord.id,
        undone := s.undone,
        committedOrder := s.committedOrder,
        redoStack := s.redoStack } := by
  obtain ⟨i1, i2, i3, i4, i5, i6, i7, i8, i9, i10, i11, i12⟩ := h
  have hids : ((exportPersisted q s).strokes.map StrokeRecord.id).Nodup := by
    unfold exportPersisted
    apply filterMap_ids_nodup _ _ ?_ i3
    intro a r hf
    cases hg : jsMapGet s.strokes a with
    | none => rw [hg] at hf; exact absurd hf (by simp)
    | some r0 =>
      rw [hg] at hf
      dsimp only at hf
      by_cases hc : r0.committed = true
      · rw [if_pos hc] at hf
        cases hf
        exact i1 (a, r) (jsMapGet_some_mem hg)
      · rw [if_neg hc] at hf
        exact absurd hf (by simp)
  unfold fromPersisted
  have h1 : (exportPersisted q s).strokes.foldl (fun m r => jsMapSet m r.id r) []
      = (exportPersisted q s).strokes.map (fun r => (r.id, r)) := by
    have := foldl_jsMapSet_of_fresh (exportPersisted q s).strokes [] (by simpa using hids)
    simpa using this
  have h2 : (exportPersisted q s).strokes.foldl (fun c r => jsSetAdd c r.id) []
      = (exportPersisted q s).strokes.map StrokeRecord.id := by
    rw [← List.foldl_map StrokeRecord.id jsSetAdd]
    exact foldl_jsSetAdd_of_nodup _ [] (by simpa using hids)
  have h3 : jsNewSet (exportPersisted q s).undone = s.undone := by
    show jsNewSet s.undone = s.undone
    exact jsNewSet_eq_self i5
  rw [h1, h2, h3]
  rfl

/-- Claim C4: persisting and restoring a drawing state that satisfies the
state invariant yields a state whose snapshot view has the same set of
committed stroke records, the same undone list, and an empty in-progress
list (in-progress strokes are discarded). -/
theorem persist_restore_roundtrip (s : DrawingState) (q : ℕ) (h : InvFull s) :
    (∀ r, r ∈ (getSnapshot (fromPersisted (exportPersisted q s))).strokes ↔
        r ∈ (getSnapshot s).strokes) ∧
    (getSnapshot (fromPersisted (exportPersisted q s))).undone = (getSnapshot s).undone ∧
    (getSnapshot (fromPersisted (exportPersisted q s))).inProgress = [] := by
  obtain ⟨i1, i2, i3, i4, i5, i6, i7, i8, i9, i10, i11, i12⟩ := h
  rw [fromPersisted_exportPersisted s q ⟨i1, i2, i3, i4, i5, i6, i7, i8, i9, i10, i11, i12⟩]
  have hsnd : ((exportPersisted q s).strokes.map (fun r => (r.id, r))).map Prod.snd
      = (exportPersisted q s).strokes := by
    rw [List.map_map]
    exact List.map_id _
  refine ⟨?_, rfl, ?_⟩
  · intro r
    unfold getSnapshot
    rw [hsnd]
    constructor
    · intro hr
      have hrE := List.mem_filter.mp hr
      obtain ⟨id, hid, hg, hc⟩ := mem_exportPersisted_strokes.mp hrE.1
      have hmem : (id, r) ∈ s.strokes := jsMapGet_some_mem hg
      exact List.mem_filter.mpr
        ⟨List.mem_map.mpr ⟨(id, r), hmem, rfl⟩, by simpa using hc⟩
    · intro hr
      have hrf := List.mem_filter.mp hr
      rcases List.mem_map.mp hrf.1 with ⟨p, hp, he⟩
      have hc : r.committed = true := by simpa using hrf.2
      have hk : p.1 ∈ s.committed := (i9 p hp).mp (he ▸ hc)
      have hkord : p.1 ∈ s.committedOrder := i7 _ hk
      have hid : r.id = p.1 := he ▸ i1 p hp
      have hg : jsMapGet s.strokes p.1 = some r := by
        apply jsMapGet_of_mem_nodup i2
        have : p = (p.1, r) := by
          cases p
          simp_all
        exact this ▸ hp
      refine List.mem_filter.mpr ⟨mem_exportPersisted_strokes.mpr ⟨p.1, hkord, hg, hc⟩, by simpa using hc⟩
  · unfold getSnapshot
    rw [hsnd]
    rw [List.filter_eq_nil_iff]
    intro r hr
    have := exportPersisted_strokes_committed hr
    simp [this]

/-- Witness for C4 at a concrete three-stroke state with one undone stroke. -/
theorem persist_restore_roundtrip_witness :
    InvFull (runOps [(0, "A", ClientOp.strokeStart "x" Tool.brush "red" 3 0 0),
        (1, "A", ClientOp.strokeEnd "x"),
        (2, "B", ClientOp.strokeStart "y" Tool.circle "blue" 5 1 1),
        (3, "B", ClientOp.strokeEnd "y"),
        (4, "B", ClientOp.undo),
        (5, "C", ClientOp.strokeStart "z" Tool.square "green" 2 2 2)]
        DrawingState.init) ∧
    (getSnapshot (fromPersisted (exportPersisted 12
        (runOps [(0, "A", ClientOp.strokeStart "x" Tool.brush "red" 3 0 0),
          (1, "A", ClientOp.strokeEnd "x"),
          (2, "B", ClientOp.strokeStart "y" Tool.circle "blue" 5 1 1),
          (3, "B", ClientOp.strokeEnd "y"),
          (4, "B", ClientOp.undo),
          (5, "C", ClientOp.strokeStart "z" Tool.square "green" 2 2 2)]
          DrawingState.init)))).undone =
      (getSnapshot (runOps [(0, "A", ClientOp.strokeStart "x" Tool.brush "red" 3 0 0),
          (1, "A", ClientOp.strokeEnd "x"),
          (2, "B", ClientOp.strokeStart "y" Tool.circle "blue" 5 1 1),
          (3, "B", ClientOp.strokeEnd "y"),
          (4, "B", ClientOp.undo),
          (5, "C", ClientOp.strokeStart "z" Tool.square "green" 2 2 2)]
          DrawingState.init)).undone ∧
    (getSnapshot (fromPersisted (exportPersisted 12
        (runOps [(0, "A", ClientOp.strokeStart "x" Tool.brush "red" 3 0 0),
          (1, "A", ClientOp.strokeEnd "x"),
          (2, "B", ClientOp.strokeStart "y" Tool.circle "blue" 5 1 1),
          (3, "B", ClientOp.strokeEnd "y"),
          (4, "B", ClientOp.undo),
          (5, "C", ClientOp.strokeStart "z" Tool.square "green" 2 2 2)]
          DrawingState.init)))).inProgress = [] := by
  refine ⟨by decide, ?_, ?_⟩
  · exact (persist_restore_roundtrip _ 12 (by decide)).2.1
  · exact (persist_restore_roundtrip _ 12 (by decide)).2.2

/-! ## Dispatcher: no-op gating and sequence bumping -/

theorem maybePersist_seq (n : ℕ) (r : Room) : ((maybePersist n r).1).seq = r.seq := by
  unfold maybePersist
  split <;> rfl

/-- Claim C5: for a joined editing user, an op that applies successfully with
no broadcast (a no-op undo/redo) is acknowledged as a no-op, does not bump
the room's `seq`, and emits no envelope; and on every path through the
dispatcher, `seq` is bumped (by exactly one) iff exactly one envelope is
emitted. -/
theorem handleMsg_noop_gating (now : ℕ) (rid socketId : String) (room : Room)
    (user : RoomUser) (raw : JsVal) (op : ClientOp) (d2 : DrawingState)
    (hu : jsMapGet room.users socketId = some user)
    (hmode : user.mode = Mode.edit)
    (hv : validateClientOp raw = Except.ok op)
    (ha : applyClientOp now user.userId op room.drawing = (ApplyRes.ok none, d2)) :
    handleMsg now (some rid) (some room) socketId raw =
      (MsgAck.ackedNoOp, some { room with drawing := d2 }, []) ∧
    (∀ raw2 ack room2 envs,
      handleMsg now (some rid) (some room) socketId raw2 = (ack, some room2, envs) →
      (room2.seq = room.seq ∧ envs = []) ∨
      (room2.seq = room.seq + 1 ∧ envs.length = 1)) := by
  have hnv : ¬ (isWriteOp op = true ∧ user.mode = Mode.view) := by
    rintro ⟨-, hc⟩
    rw [hmode] at hc
    exact Mode.noConfusion hc
  constructor
  · unfold handleMsg
    dsimp only
    rw [hu, hv]
    dsimp only
    rw [if_neg hnv, ha]
  · intro raw2 ack room2 envs h
    cases hv2 : validateClientOp raw2 with
    | error e =>
      have hcomp : handleMsg now (some rid) (some room) socketId raw2 =
          (MsgAck.ackedErr e, some room, []) := by
        unfold handleMsg
        dsimp only
        rw [hu, hv2]
      rw [hcomp] at h
      simp only [Prod.mk.injEq, Option.some.injEq] at h
      left
      rw [← h.2.1, ← h.2.2]
      exact ⟨rfl, rfl⟩
    | ok op2 =>
      by_cases hview : isWriteOp op2 = true ∧ user.mode = Mode.view
      · have hcomp : handleMsg now (some rid) (some room) socketId raw2 =
            (MsgAck.ackedErr "view-only user cannot modify canvas", some room, []) := by
          unfold handleMsg
          dsimp only
          rw [hu, hv2]
          dsimp only
          rw [if_pos hview]
        rw [hcomp] at h
        simp only [Prod.mk.injEq, Option.some.injEq] at h
        left
        rw [← h.2.1, ← h.2.2]
        exact ⟨rfl, rfl⟩
      · rcases happ : applyClientOp now user.userId op2 room.drawing with ⟨res, d⟩
        cases res with
        | err e =>
          have hcomp : handleMsg now (some rid) (some room) socketId raw2 =
              (MsgAck.ackedErr e, some room, []) := by
            unfold handleMsg
            dsimp only
            rw [hu, hv2]
            dsimp only
            rw [if_neg hview, happ]
          rw [hcomp] at h
          simp only [Prod.mk.injEq, Option.some.injEq] at h
          left
          rw [← h.2.1, ← h.2.2]
          exact ⟨rfl, rfl⟩
        | ok b =>
          cases b with
          | none =>
            have hcomp : handleMsg now (some rid) (some room) socketId raw2 =
                (MsgAck.ackedNoOp, some { room with drawing := d }, []) := by
              unfold handleMsg
              dsimp only
              rw [hu, hv2]
              dsimp only
              rw [if_neg hview, happ]
            rw [hcomp] at h
            simp only [Prod.mk.injEq, Option.some.injEq] at h
            left
            rw [← h.2.1, ← h.2.2]
            exact ⟨rfl, rfl⟩
          | some sop =>
            have hcomp : handleMsg now (some rid) (some room) socketId raw2 =
                (MsgAck.acked (room.seq + 1),
                  some (maybePersist now
                    { room with drawing := d, seq := room.seq + 1 }).1,
                  [{ seq := room.seq + 1, op := sop, byUser := user.userId, ts := now }]) := by
              unfold handleMsg
              dsimp only
              rw [hu, hv2]
              dsimp only
              rw [if_neg hview, happ]
              dsimp only [bumpSeq]
            rw [hcomp] at h
            simp only [Prod.mk.injEq, Option.some.injEq] at h
            right
            rw [← h.2.1, ← h.2.2]
            constructor
            · rw [maybePersist_seq]
            · rfl

/-- Witness for C5: an editing user in a joined room issues `undo` on an
empty canvas; the ack is the no-op flag, `seq` stays 0, nothing is emitted. -/
theorem handleMsg_noop_gating_witness :
    handleMsg 0 (some "room") (some noopRoom) "sock1"
        (JsVal.obj [("t", JsVal.str "undo")]) =
      (MsgAck.ackedNoOp, some noopRoom, []) :=
  (handleMsg_noop_gating 0 "room" "sock1" noopRoom noopUser
    (JsVal.obj [("t", JsVal.str "undo")]) ClientOp.undo DrawingState.init
    (by decide) rfl rfl rfl).1

/-! ## Client reorder buffer -/

theorem drainLoop_spec (now : ℕ) :
    ∀ (fuel : ℕ) (pending : List (ℕ × OpEnvelope)) (expected : ℕ) (st : RoomState),
    pending.length ≤ fuel →
    ((drainLoop now fuel expected pending st).1 =
        expected + (drainLoop now fuel expected pending st).2.2.2.length) ∧
    (∀ i, i < (drainLoop now fuel expected pending st).2.2.2.length →
      jsMapGet pending (expected + i) =
        (drainLoop now fuel expected pending st).2.2.2.get? i) ∧
    jsMapGet pending
      (expected + (drainLoop now fuel expected pending st).2.2.2.length) = none ∧
    (drainLoop now fuel expected pending st).2.2.1 =
      (drainLoop now fuel expected pending st).2.2.2.foldl
        (fun acc e => storeApplyEnvelope now e acc) st := by
  intro fuel
  induction fuel with
  | zero =>
    intro pending expected st hlen
    have hnil : pending = [] := List.eq_nil_of_length_eq_zero (Nat.le_zero.mp hlen)
    subst hnil
    refine ⟨rfl, ?_, ?_, rfl⟩
    · intro i hi
      simp [drainLoop] at hi
    · exact rfl
  | succ fuel ih =>
    intro pending expected st hlen
    cases hg : jsMapGet pending expected with
    | none =>
      have hred : drainLoop now (fuel + 1) expected pending st =
          (expected, pending, st, []) := by
        conv_lhs => rw [drainLoop]
        rw [hg]
      rw [hred]
      refine ⟨rfl, ?_, ?_, rfl⟩
      · intro i hi
        simp at hi
      · exact hg
    | some env =>
      have hlen2 : (jsMapDelete pending expected).length ≤ fuel :=
        Nat.lt_succ_iff.mp (Nat.lt_of_lt_of_le (jsMapDelete_length_lt hg) hlen)
      obtain ⟨ih1, ih2, ih3, ih4⟩ := ih (jsMapDelete pending expected) (expected + 1)
        (storeApplyEnvelope now env st) hlen2
      have hred : drainLoop now (fuel + 1) expected pending st =
          ((drainLoop now fuel (expected + 1) (jsMapDelete pending expected)
              (storeApplyEnvelope now env st)).1,
           (drainLoop now fuel (expected + 1) (jsMapDelete pending expected)
              (storeApplyEnvelope now env st)).2.1,
           (drainLoop now fuel (expected + 1) (jsMapDelete pending expected)
              (storeApplyEnvelope now env st)).2.2.1,
           env :: (drainLoop now fuel (expected + 1) (jsMapDelete pending expected)
              (storeApplyEnvelope now env st)).2.2.2) := by
        conv_lhs => rw [drainLoop]
        rw [hg]
      rw [hred]
      refine ⟨?_, ?_, ?_, ?_⟩
      · rw [ih1]
        simp only [List.length_cons]
        omega
      · intro i hi
        cases i with
        | zero =>
          simpa using hg
        | succ j =>
          simp only [List.length_cons] at hi
          have hj : j < (drainLoop now fuel (expected + 1) (jsMapDelete pending expected)
              (storeApplyEnvelope now env st)).2.2.2.length := by omega
          have hstep := ih2 j hj
          have hkey : expected + (j + 1) = expected + 1 + j := by omega
          rw [hkey, ← jsMapGet_delete_ne (k := expected) (by omega)]
          simpa using hstep
      · simp only [List.length_cons]
        have hkey : expected + ((drainLoop now fuel (expected + 1) (jsMapDelete pending expected)
            (storeApplyEnvelope now env st)).2.2.2.length + 1) =
            expected + 1 + (drainLoop now fuel (expected + 1) (jsMapDelete pending expected)
              (storeApplyEnvelope now env st)).2.2.2.length := by omega
        rw [hkey, ← jsMapGet_delete_ne (k := expected) (by omega)]
        exact ih3
      · rw [ih4]
        rfl

/-- Claim C7: the reorder buffer discards stale envelopes, buffers early
ones, and on the expected sequence number applies the envelope and then all
contiguously buffered successors in order, advancing `expectedSeq`
accordingly; concretely, from `expectedSeq = 5` and arrivals 7, 6, 5, the
mirror applies 5, 6, 7 in order and `expectedSeq` becomes 8. -/
theorem handleEnvelope_spec (now : ℕ) (env : OpEnvelope) (c : ClientBuf)
    (hroom : roomIdFalsy c.store.roomId = false) :
    (env.seq < c.expectedSeq → handleEnvelope now env c = (c, [])) ∧
    (env.seq > c.expectedSeq → handleEnvelope now env c =
      ({ c with pending := jsMapSet c.pending env.seq env }, [])) ∧
    (env.seq = c.expectedSeq →
      1 ≤ (handleEnvelope now env c).2.length ∧
      (handleEnvelope now env c).2.get? 0 = some env ∧
      (handleEnvelope now env c).1.expectedSeq =
        c.expectedSeq + (handleEnvelope now env c).2.length ∧
      (∀ j, j + 1 < (handleEnvelope now env c).2.length →
        jsMapGet c.pending (c.expectedSeq + 1 + j) =
          (handleEnvelope now env c).2.get? (j + 1)) ∧
      jsMapGet c.pending (c.expectedSeq + (handleEnvelope now env c).2.length) = none ∧
      (handleEnvelope now env c).1.store =
        (handleEnvelope now env c).2.foldl
          (fun acc e => storeApplyEnvelope now e acc) c.store) ∧
    ((handleEnvelope 0 (scenarioEnv 5) ((handleEnvelope 0 (scenarioEnv 6)
        ((handleEnvelope 0 (scenarioEnv 7) scenarioBuf).1)).1)).2 =
      [scenarioEnv 5, scenarioEnv 6, scenarioEnv 7] ∧
     (handleEnvelope 0 (scenarioEnv 5) ((handleEnvelope 0 (scenarioEnv 6)
        ((handleEnvelope 0 (scenarioEnv 7) scenarioBuf).1)).1)).1.expectedSeq = 8) := by
  have hnotroom : ¬ (roomIdFalsy c.store.roomId = true) := by
    rw [hroom]
    exact Bool.false_ne_true
  refine ⟨?_, ?_, ?_, by decide, by decide⟩
  · intro h
    unfold handleEnvelope
    rw [if_neg hnotroom, if_pos h]
  · intro h
    have h1 : ¬ (env.seq < c.expectedSeq) := by omega
    unfold handleEnvelope
    rw [if_neg hnotroom, if_neg h1, if_pos h]
  · intro h
    have h1 : ¬ (env.seq < c.expectedSeq) := by omega
    have h2 : ¬ (env.seq > c.expectedSeq) := by omega
    have hred : handleEnvelope now env c =
        ({ expectedSeq := (drainLoop now c.pending.length (c.expectedSeq + 1) c.pending
              (storeApplyEnvelope now env c.store)).1,
           pending := (drainLoop now c.pending.length (c.expectedSeq + 1) c.pending
              (storeApplyEnvelope now env c.store)).2.1,
           store := (drainLoop now c.pending.length (c.expectedSeq + 1) c.pending
              (storeApplyEnvelope now env c.store)).2.2.1 },
         env :: (drainLoop now c.pending.length (c.expectedSeq + 1) c.pending
              (storeApplyEnvelope now env c.store)).2.2.2) := by
      unfold handleEnvelope
      rw [if_neg hnotroom, if_neg h1, if_neg h2]
    obtain ⟨d1, d2, d3, d4⟩ := drainLoop_spec now c.pending.length c.pending
      (c.expectedSeq + 1) (storeApplyEnvelope now env c.store) (Nat.le_refl _)
    rw [hred]
    refine ⟨by simp, rfl, ?_, ?_, ?_, ?_⟩
    · simp only [List.length_cons]
      rw [d1]
      omega
    · intro j hj
      simp only [List.length_cons] at hj
      have hj2 : j < (drainLoop now c.pending.length (c.expectedSeq + 1) c.pending
          (storeApplyEnvelope now env c.store)).2.2.2.length := by omega
      have := d2 j hj2
      simpa using this
    · simp only [List.length_cons]
      have hkey : c.expectedSeq + ((drainLoop now c.pending.length (c.expectedSeq + 1)
          c.pending (storeApplyEnvelope now env c.store)).2.2.2.length + 1) =
          c.expectedSeq + 1 + (drainLoop now c.pending.length (c.expectedSeq + 1)
            c.pending (storeApplyEnvelope now env c.store)).2.2.2.length := by omega
      rw [hkey]
      exact d3
    · rw [d4]
      rfl

/-- Witness for C7: a seq-7 envelope arriving while 5 is expected is buffered
verbatim and nothing is applied. -/
theorem handleEnvelope_spec_witness :
    handleEnvelope 0 (scenarioEnv 7) scenarioBuf =
      ({ scenarioBuf with
          pending := jsMapSet scenarioBuf.pending (scenarioEnv 7).seq (scenarioEnv 7) },
        []) :=
  (handleEnvelope_spec 0 (scenarioEnv 7) scenarioBuf (by decide)).2.1 (by decide)

/-! ## Validator: width clamping and clientId handling -/

theorem validateClientOp_strokeStart_width {raw : JsVal} {sid : String} {tool : Tool}
    {color : String} {w x y : ℚ}
    (h : validateClientOp raw = Except.ok (ClientOp.strokeStart sid tool color w x y)) :
    ∃ w0, asNum (raw.getField "w") = some w0 ∧ w = max 1 (min 64 w0) := by
  unfold validateClientOp at h
  by_cases hobj : isObjLike raw = true
  case neg =>
    rw [if_pos (by simpa using hobj)] at h
    exact Except.noConfusion h
  case pos =>
    rw [if_neg (by simpa using hobj)] at h
    cases hts : asStr (raw.getField "t") with
    | none =>
      rw [hts] at h
      exact Except.noConfusion h
    | some t =>
      rw [hts] at h
      dsimp only at h
      by_cases ht1 : t = "undo"
      · rw [if_pos ht1] at h
        simp at h
      · rw [if_neg ht1] at h
        by_cases ht2 : t = "redo"
        · rw [if_pos ht2] at h
          simp at h
        · rw [if_neg ht2] at h
          by_cases ht3 : t = "stroke_start"
          · rw [if_pos ht3] at h
            cases hsid : asStr (raw.getField "strokeId") with
            | none =>
              rw [hsid] at h
              exact Except.noConfusion h
            | some sid0 =>
              rw [hsid] at h
              dsimp only at h
              cases htool : asTool (raw.getField "tool") with
              | none =>
                rw [htool] at h
                exact Except.noConfusion h
              | some tool0 =>
                rw [htool] at h
                dsimp only at h
                cases hcol : asStr (raw.getField "color") with
                | none =>
                  rw [hcol] at h
                  exact Except.noConfusion h
                | some color0 =>
                  rw [hcol] at h
                  dsimp only at h
                  cases hw : asNum (raw.getField "w") with
                  | none =>
                    rw [hw] at h
                    exact Except.noConfusion h
                  | some w0 =>
                    rw [hw] at h
                    dsimp only at h
                    cases hx : asNum (raw.getField "x") with
                    | none =>
                      cases hy : asNum (raw.getField "y") with
                      | none =>
                        rw [hx, hy] at h
                        exact Except.noConfusion h
                      | some y0 =>
                        rw [hx, hy] at h
                        exact Except.noConfusion h
                    | some x0 =>
                      cases hy : asNum (raw.getField "y") with
                      | none =>
                        rw [hx, hy] at h
                        exact Except.noConfusion h
                      | some y0 =>
                        rw [hx, hy] at h
                        dsimp only at h
                        simp only [Except.ok.injEq, ClientOp.strokeStart.injEq] at h
                        exact ⟨w0, rfl, h.2.2.2.1.symm⟩
          · rw [if_neg ht3] at h
            by_cases ht4 : t = "stroke_points"
            · rw [if_pos ht4] at h
              cases hsid : asStr (raw.getField "strokeId") with
              | none =>
                rw [hsid] at h
                exact Except.noConfusion h
              | some sid0 =>
                rw [hsid] at h
                dsimp only at h
                cases hpts : asPts (raw.getField "pts") with
                | none =>
                  rw [hpts] at h
                  exact Except.noConfusion h
                | some pts0 =>
                  rw [hpts] at h
                  simp at h
            · rw [if_neg ht4] at h
              by_cases ht5 : t = "stroke_end"
              · rw [if_pos ht5] at h
                cases hsid : asStr (raw.getField "strokeId") with
                | none =>
                  rw [hsid] at h
                  exact Except.noConfusion h
                | some sid0 =>
                  rw [hsid] at h
                  simp at h
              · rw [if_neg ht5] at h
                exact Except.noConfusion h

/-- Counterexample to C8 as stated: the raw width 2.5 is accepted by the
validator and stored as 5/2, which is not an integer — `Math.max(1,
Math.min(64, w))` clamps but does not round. -/
theorem width_not_integer_counterexample :
    validateClientOp (JsVal.obj [("t", JsVal.str "stroke_start"),
        ("strokeId", JsVal.str "s"), ("tool", JsVal.str "brush"),
        ("color", JsVal.str "red"), ("w", JsVal.num (5/2)),
        ("x", JsVal.num 0), ("y", JsVal.num 0)]) =
      Except.ok (ClientOp.strokeStart "s" Tool.brush "red" (5/2) 0 0) ∧
    ¬ ∃ n : ℤ, ((5 : ℚ)/2) = (n : ℚ) := by
  constructor
  · have h0 : validateClientOp (JsVal.obj [("t", JsVal.str "stroke_start"),
        ("strokeId", JsVal.str "s"), ("tool", JsVal.str "brush"),
        ("color", JsVal.str "red"), ("w", JsVal.num (5/2)),
        ("x", JsVal.num 0), ("y", JsVal.num 0)]) =
        Except.ok (ClientOp.strokeStart "s" Tool.brush "red"
          (max 1 (min 64 (5/2))) 0 0) := rfl
    rw [h0, min_eq_right (by norm_num : (5:ℚ)/2 ≤ 64),
      max_eq_right (by norm_num : (1:ℚ) ≤ 5/2)]
  · rintro ⟨n, hn⟩
    have h2 : (2 : ℚ) * (5/2) = 5 := by norm_num
    rw [hn] at h2
    have h3 : (2 * n : ℤ) = 5 := by exact_mod_cast h2
    omega

/-- Claim C8 (amended): the stored width of an accepted `stroke_start` is the
clamp of the raw finite width to the interval [1, 64] — a rational, not
necessarily an integer; in particular raw width 0.1 is stored as 1 and raw
width 999 as 64. -/
theorem validateClientOp_width_clamped (raw : JsVal) (sid : String) (tool : Tool)
    (color : String) (w x y w0 : ℚ)
    (h : validateClientOp raw = Except.ok (ClientOp.strokeStart sid tool color w x y))
    (hw : asNum (raw.getField "w") = some w0) :
    w = max 1 (min 64 w0) ∧ 1 ≤ w ∧ w ≤ 64 ∧
    validateClientOp (JsVal.obj [("t", JsVal.str "stroke_start"),
        ("strokeId", JsVal.str "s"), ("tool", JsVal.str "brush"),
        ("color", JsVal.str "red"), ("w", JsVal.num (1/10)),
        ("x", JsVal.num 0), ("y", JsVal.num 0)]) =
      Except.ok (ClientOp.strokeStart "s" Tool.brush "red" 1 0 0) ∧
    validateClientOp (JsVal.obj [("t", JsVal.str "stroke_start"),
        ("strokeId", JsVal.str "s"), ("tool", JsVal.str "brush"),
        ("color", JsVal.str "red"), ("w", JsVal.num 999),
        ("x", JsVal.num 0), ("y", JsVal.num 0)]) =
      Except.ok (ClientOp.strokeStart "s" Tool.brush "red" 64 0 0) := by
  obtain ⟨w1, hw1, hclamp⟩ := validateClientOp_strokeStart_width h
  rw [hw] at hw1
  cases hw1
  refine ⟨hclamp, ?_, ?_, ?_, ?_⟩
  · rw [hclamp]
    exact le_max_left 1 _
  · rw [hclamp]
    exact max_le (by norm_num) (min_le_left 64 w0)
  · have h0 : validateClientOp (JsVal.obj [("t", JsVal.str "stroke_start"),
        ("strokeId", JsVal.str "s"), ("tool", JsVal.str "brush"),
        ("color", JsVal.str "red"), ("w", JsVal.num (1/10)),
        ("x", JsVal.num 0), ("y", JsVal.num 0)]) =
        Except.ok (ClientOp.strokeStart "s" Tool.brush "red"
          (max 1 (min 64 (1/10))) 0 0) := rfl
    rw [h0, min_eq_right (by norm_num : (1:ℚ)/10 ≤ 64),
      max_eq_left (by norm_num : (1:ℚ)/10 ≤ 1)]
  · have h0 : validateClientOp (JsVal.obj [("t", JsVal.str "stroke_start"),
        ("strokeId", JsVal.str "s"), ("tool", JsVal.str "brush"),
        ("color", JsVal.str "red"), ("w", JsVal.num 999),
        ("x", JsVal.num 0), ("y", JsVal.num 0)]) =
        Except.ok (ClientOp.strokeStart "s" Tool.brush "red"
          (max 1 (min 64 999)) 0 0) := rfl
    rw [h0, min_eq_left (by norm_num : (64:ℚ) ≤ 999),
      max_eq_right (by norm_num : (1:ℚ) ≤ 64)]

/-- Witness for C8 (amended) at raw width 999: the hypotheses hold with the
stored width `max 1 (min 64 999)`, which lies in [1, 64]. -/
theorem validateClientOp_width_clamped_witness :
    (1 : ℚ) ≤ max 1 (min 64 999) ∧ (max 1 (min 64 999) : ℚ) ≤ 64 :=
  ⟨(validateClientOp_width_clamped (JsVal.obj [("t", JsVal.str "stroke_start"),
      ("strokeId", JsVal.str "s"), ("tool", JsVal.str "brush"),
      ("color", JsVal.str "red"), ("w", JsVal.num 999),
      ("x", JsVal.num 0), ("y", JsVal.num 0)]) "s" Tool.brush "red"
      (max 1 (min 64 999)) 0 0 999 rfl rfl).2.1,
   (validateClientOp_width_clamped (JsVal.obj [("t", JsVal.str "stroke_start"),
      ("strokeId", JsVal.str "s"), ("tool", JsVal.str "brush"),
      ("color", JsVal.str "red"), ("w", JsVal.num 999),
      ("x", JsVal.num 0), ("y", JsVal.num 0)]) "s" Tool.brush "red"
      (max 1 (min 64 999)) 0 0 999 rfl rfl).2.2.1⟩

set_option maxRecDepth 8192 in
/-- Counterexample to C9 as stated: a 65-unit clientId is not truncated to
its first 64 units — `validateJoin` drops it entirely, so the user id falls
back to the connection id, not to the 64-unit prefix. -/
theorem clientId_not_truncated_counterexample :
    validateJoin (JsVal.obj [("roomId", JsVal.str "r"),
        ("clientId", JsVal.str (String.mk (List.replicate 65 'a'))) ]) =
      Except.ok { roomId := "r", name := none, mode := Mode.edit, clientId := none } ∧
    resolveUserId none "sock" = "sock" ∧
    "sock" ≠ (String.mk (List.replicate 65 'a')).take 64 := by
  refine ⟨?_, rfl, by decide⟩
  have h0 : validateJoin (JsVal.obj [("roomId", JsVal.str "r"),
      ("clientId", JsVal.str (String.mk (List.replicate 65 'a'))) ]) =
      Except.ok { roomId := "r", name := none, mode := Mode.edit, clientId := if (String.mk (List.replicate 65 'a')).length ≤ 64 then some (String.mk (List.replicate 65 'a')) else none } := rfl
  rw [h0, if_neg (by decide)]

/-- Claim C9 (amended): when the join payload carries a string `clientId`, it
is kept verbatim iff it has at most 64 units (and then, when non-empty, it
becomes the user id); a longer `clientId` is dropped and the connection id
is used as the user id instead. -/
theorem validateJoin_clientId_spec (raw : JsVal) (p : JoinPayload)
    (cid socketId : String)
    (hc : raw.getField "clientId" = some (JsVal.str cid))
    (h : validateJoin raw = Except.ok p) :
    (cid.length ≤ 64 → p.clientId = some cid) ∧
    (64 < cid.length → p.clientId = none) ∧
    (0 < cid.length → cid.length ≤ 64 →
      resolveUserId p.clientId socketId = cid) ∧
    (64 < cid.length → resolveUserId p.clientId socketId = socketId) := by
  unfold validateJoin at h
  by_cases hobj : isObjLike raw = true
  case neg =>
    rw [if_pos (by simpa using hobj)] at h
    exact Except.noConfusion h
  case pos =>
    rw [if_neg (by simpa using hobj)] at h
    cases hrid : asStr (raw.getField "roomId") with
    | none =>
      rw [hrid] at h
      exact Except.noConfusion h
    | some rid =>
      rw [hrid] at h
      dsimp only at h
      rw [hc] at h
      dsimp only at h
      injection h with h2
      subst h2
      refine ⟨?_, ?_, ?_, ?_⟩
      · intro hle
        show (if cid.length ≤ 64 then some cid else none) = some cid
        rw [if_pos hle]
      · intro hgt
        show (if cid.length ≤ 64 then some cid else none) = none
        rw [if_neg (by omega)]
      · intro hpos hle
        show resolveUserId (if cid.length ≤ 64 then some cid else none) socketId = cid
        rw [if_pos hle]
        show (if cid.length > 0 then cid else socketId) = cid
        rw [if_pos hpos]
      · intro hgt
        show resolveUserId (if cid.length ≤ 64 then some cid else none) socketId = socketId
        rw [if_neg (by omega)]
        rfl

/-- Witness for C9 (amended): a 3-unit clientId resolves to itself, applied
at a concrete join payload. -/
theorem validateJoin_clientId_spec_witness :
    resolveUserId (some "abc") "sock" = "abc" :=
  (validateJoin_clientId_spec (JsVal.obj [("roomId", JsVal.str "r"),
    ("clientId", JsVal.str "abc")])
    { roomId := "r", name := none, mode := Mode.edit, clientId := some "abc" }
    "abc" "sock" rfl rfl).2.2.1 (by decide) (by decide)

/-- Claim C10: the validator accepts a `stroke_points` op with an empty
`pts` array, and applying it as the owner of an existing uncommitted stroke
succeeds with the op as broadcast while leaving the stroke's points
unchanged (only `updatedAt` moves) — so a broadcast can carry no point
data. -/
theorem strokePoints_empty_spec (now : ℕ) (uid sid : String) (s : DrawingState)
    (r : StrokeRecord) (hsid : 0 < sid.length)
    (hg : jsMapGet s.strokes sid = some r)
    (hc : r.committed = false) (ho : r.userId = uid) :
    validateClientOp (JsVal.obj [("t", JsVal.str "stroke_points"),
        ("strokeId", JsVal.str sid), ("pts", JsVal.arr [])]) =
      Except.ok (ClientOp.strokePoints sid []) ∧
    applyClientOp now uid (ClientOp.strokePoints sid []) s =
      (ApplyRes.ok (some (ServerOp.strokePoints sid [])),
        { s with strokes := jsMapSet s.strokes sid ({ r with updatedAt := now }) }) ∧
    (∀ r2, jsMapGet (jsMapSet s.strokes sid ({ r with updatedAt := now })) sid =
        some r2 → r2.points = r.points) := by
  refine ⟨?_, ?_, ?_⟩
  · unfold validateClientOp
    rw [if_neg (by simp [isObjLike])]
    have ht : asStr ((JsVal.obj [("t", JsVal.str "stroke_points"),
        ("strokeId", JsVal.str sid), ("pts", JsVal.arr [])]).getField "t") =
        some "stroke_points" := rfl
    rw [ht]
    dsimp only
    rw [if_neg (by decide), if_neg (by decide), if_neg (by decide), if_pos rfl]
    have hsid2 : asStr ((JsVal.obj [("t", JsVal.str "stroke_points"),
        ("strokeId", JsVal.str sid), ("pts", JsVal.arr [])]).getField "strokeId") =
        if sid.length > 0 then some sid else none := rfl
    rw [hsid2, if_pos hsid]
    dsimp only
    have hpts : asPts ((JsVal.obj [("t", JsVal.str "stroke_points"),
        ("strokeId", JsVal.str sid), ("pts", JsVal.arr [])]).getField "pts") =
        some [] := rfl
    rw [hpts]
    rfl
  · simp only [applyClientOp]
    rw [hg]
    dsimp only
    rw [if_neg (by simp [hc]), if_neg (show ¬ (r.userId ≠ uid) from fun hne => hne ho)]
    rw [List.append_nil]
  · intro r2 h2
    rw [jsMapGet_set_self] at h2
    injection h2 with h3
    rw [← h3]

/-- Witness for C10: empty-pts op applied to a freshly started stroke "a". -/
theorem strokePoints_empty_spec_witness :
    validateClientOp (JsVal.obj [("t", JsVal.str "stroke_points"),
        ("strokeId", JsVal.str "a"), ("pts", JsVal.arr [])]) =
      Except.ok (ClientOp.strokePoints "a" []) ∧
    applyClientOp 9 "A" (ClientOp.strokePoints "a" [])
        (applyClientOp 0 "A" (ClientOp.strokeStart "a" Tool.brush "red" 3 1 2)
          DrawingState.init).2 =
      (ApplyRes.ok (some (ServerOp.strokePoints "a" [])),
        { (applyClientOp 0 "A" (ClientOp.strokeStart "a" Tool.brush "red" 3 1 2) DrawingState.init).2 with strokes := jsMapSet (applyClientOp 0 "A" (ClientOp.strokeStart "a" Tool.brush "red" 3 1 2) DrawingState.init).2.strokes "a" ({ ({ id := "a", userId := "A", tool := Tool.brush, color := "red", w := 3, points := [(1, 2)], committed := false, createdAt := 0, updatedAt := 0 } : StrokeRecord) with updatedAt := 9 }) }) :=
  ⟨(strokePoints_empty_spec 9 "A" "a"
      (applyClientOp 0 "A" (ClientOp.strokeStart "a" Tool.brush "red" 3 1 2)
        DrawingState.init).2
      ({ id := "a", userId := "A", tool := Tool.brush, color := "red", w := 3, points := [(1, 2)], committed := false, createdAt := 0, updatedAt := 0 } : StrokeRecord)
      (by decide) rfl rfl rfl).1,
   (strokePoints_empty_spec 9 "A" "a"
      (applyClientOp 0 "A" (ClientOp.strokeStart "a" Tool.brush "red" 3 1 2)
        DrawingState.init).2
      ({ id := "a", userId := "A", tool := Tool.brush, color := "red", w := 3, points := [(1, 2)], committed := false, createdAt := 0, updatedAt := 0 } : StrokeRecord)
      (by decide) rfl rfl rfl).2.1⟩

end Canvas
